import Mathlib

/-!
# KRDS decoder — shallow embedding and verification

A shallow embedding of `krds.py`, a decoder for the Kindle reader data
store binary format, together with theorems checking the natural-language
specification of the program against the code.

Layers, mirroring the source:
* `Deserializer` — the byte cursor (`unpack` / `extract` / length);
* `decodeNext` — the tagged primitive decoder (`decode_next`);
* `runRule` / `decodeObject` — the per-structure-name reconstructor
  (`decode_object`);
* `deserializeData` — the top-level driver (`deserialize`).

Bytes are modelled as `Nat` (each `< 256` in real inputs), Python ints as
`Int`, Python floats opaquely by their raw big-endian bit pattern (no claim
computes with float values).  Python exceptions become an `Err` inductive
whose constructors follow the specification's error taxonomy; logging
becomes an explicit list of `Diag` events returned on success paths.
-/

namespace KRDS

/-- A decoded Python value, as produced by `decode_next` / `decode_object`:
scalars, `None`, lists, and insertion-ordered dictionaries. -/
inductive KValue where
  | bool (b : Bool)
  | int (n : Int)
  | float (width : Nat) (bits : Nat)
  | str (s : String)
  | null
  | list (xs : List KValue)
  | dict (entries : List (String × KValue))
deriving Repr

/-- Fatal decode failures.  Constructors follow the specification's error
taxonomy; each corresponds to a `raise` site (or a raising Python builtin:
`IndexError` from `val.pop(0)` on an empty list is `missingValue`,
`struct.error` / insufficient `extract` data is `truncatedInput`,
`KeyError` from a subscript is `keyError`, `TypeError`-like type confusion
is `typeError`).  `fuelOut` is an artifact of the embedding's recursion
fuel, not a behaviour of the program. -/
inductive Err where
  | badSignature
  | unsupportedVersion (v : KValue)
  | truncatedInput
  | unknownTag (t : Int)
  | invalidBoolean (b : Int)
  | invalidUtf8
  | unknownLprVersion (v : Int)
  | unknownAnnotationType (t : Int)
  | malformedAnnot
  | excessValues (name : String)
  | missingValue (name : String)
  | duplicateKey (k : String)
  | keyError (k : String)
  | typeError
  | fuelOut
deriving Repr

/-- Non-fatal logged diagnostics. -/
inductive Diag where
  | unknownStructure (name : String)
  | trailingBytes (count : Nat)
deriving Repr, DecidableEq

/-- The byte cursor of the source's `Deserializer` class: an immutable
buffer plus a read offset. -/
structure Deserializer where
  buffer : List Nat
  offset : Nat
deriving Repr

/-- `len(self)` of the source: bytes remaining past the offset. -/
def Deserializer.remaining (d : Deserializer) : Nat :=
  d.buffer.length - d.offset

/-- Big-endian value of a byte sequence. -/
def beNat (bs : List Nat) : Nat :=
  bs.foldl (fun acc b => acc * 256 + b) 0

/-- Two's-complement reinterpretation of a `w`-byte unsigned value as a
signed integer (what `struct` does for formats `b`, `>h`, `>l`, `>q`). -/
def toSigned (w : Nat) (u : Nat) : Int :=
  if u < 2 ^ (8 * w - 1) then (u : Int) else (u : Int) - 2 ^ (8 * w)

/-- `struct.unpack_from` byte access: the `width` bytes at the offset, or
`none` when fewer than `width` bytes remain (`struct.error`). -/
def Deserializer.readBytes (d : Deserializer) (width : Nat) : Option (List Nat) :=
  if ((d.buffer.drop d.offset).take width).length = width
  then some ((d.buffer.drop d.offset).take width) else none

/-- `unpack` with a signed integer format of the given byte width
(`"b"`, `">h"`, `">l"`, `">q"`); `advance := false` is the one-byte peek. -/
def Deserializer.unpackSigned (d : Deserializer) (width : Nat) (advance : Bool) :
    Except Err (Int × Deserializer) :=
  match d.readBytes width with
  | none => .error .truncatedInput
  | some bs =>
      .ok (toSigned width (beNat bs),
           if advance then { d with offset := d.offset + width } else d)

/-- `unpack` with an unsigned integer format (`">H"`). -/
def Deserializer.unpackUnsigned (d : Deserializer) (width : Nat) :
    Except Err (Nat × Deserializer) :=
  match d.readBytes width with
  | none => .error .truncatedInput
  | some bs => .ok (beNat bs, { d with offset := d.offset + width })

/-- `unpack` with a float format (`">f"`, `">d"`): the raw big-endian bit
pattern is carried opaquely (no claim computes with float values). -/
def Deserializer.unpackFloatBits (d : Deserializer) (width : Nat) :
    Except Err (Nat × Deserializer) :=
  match d.readBytes width with
  | none => .error .truncatedInput
  | some bs => .ok (beNat bs, { d with offset := d.offset + width })

/-- The source's `extract(size)`: the next `size` bytes, advancing, or
`truncatedInput` when `size` is negative or exceeds the remaining length
(Python slicing clamps, then `len(data) < size or size < 0` raises).
`advance := false` leaves the offset unchanged. -/
def Deserializer.extract (d : Deserializer) (size : Int) (advance : Bool) :
    Except Err (List Nat × Deserializer) :=
  if size < 0 then .error .truncatedInput
  else if ((d.buffer.drop d.offset).take size.toNat).length < size.toNat then
    .error .truncatedInput
  else .ok ((d.buffer.drop d.offset).take size.toNat,
    if advance then { d with offset := d.offset + size.toNat } else d)

/-! ## UTF-8, timestamps, ordered dictionaries, Python-style coercions -/

/-- Whether a byte is a UTF-8 continuation byte. -/
def isCont (b : Nat) : Bool := 0x80 ≤ b && b ≤ 0xBF

/-- Strict UTF-8 decoding of a byte list (Python `bytes.decode("utf-8")`):
rejects truncated sequences, overlong encodings, surrogates and
code points above U+10FFFF. -/
def utf8Chars : List Nat → Option (List Char)
  | [] => some []
  | b1 :: rest =>
    if b1 < 0x80 then
      (utf8Chars rest).map (fun cs => Char.ofNat b1 :: cs)
    else if 0xC2 ≤ b1 && b1 ≤ 0xDF then
      match rest with
      | b2 :: rest2 =>
        if isCont b2 then
          (utf8Chars rest2).map (fun cs =>
            Char.ofNat ((b1 - 0xC0) * 0x40 + (b2 - 0x80)) :: cs)
        else none
      | [] => none
    else if 0xE0 ≤ b1 && b1 ≤ 0xEF then
      match rest with
      | b2 :: b3 :: rest2 =>
        let lo2 := if b1 = 0xE0 then 0xA0 else 0x80
        let hi2 := if b1 = 0xED then 0x9F else 0xBF
        if (lo2 ≤ b2 && b2 ≤ hi2) && isCont b3 then
          (utf8Chars rest2).map (fun cs =>
            Char.ofNat ((b1 - 0xE0) * 0x1000 + (b2 - 0x80) * 0x40 + (b3 - 0x80)) :: cs)
        else none
      | _ => none
    else if 0xF0 ≤ b1 && b1 ≤ 0xF4 then
      match rest with
      | b2 :: b3 :: b4 :: rest2 =>
        let lo2 := if b1 = 0xF0 then 0x90 else 0x80
        let hi2 := if b1 = 0xF4 then 0x8F else 0xBF
        if (lo2 ≤ b2 && b2 ≤ hi2) && (isCont b3 && isCont b4) then
          (utf8Chars rest2).map (fun cs =>
            Char.ofNat ((b1 - 0xF0) * 0x40000 + (b2 - 0x80) * 0x1000 +
              (b3 - 0x80) * 0x40 + (b4 - 0x80)) :: cs)
        else none
      | _ => none
    else none

/-- UTF-8 decoding to a string. -/
def utf8Decode (bs : List Nat) : Option String :=
  (utf8Chars bs).map String.mk

/-- Left-pad a numeral with zeroes to the given width. -/
def padNum (width : Nat) (n : Nat) : String :=
  let s := toString n
  String.mk (List.replicate (width - s.length) '0') ++ s

/-- Gregorian date for a count of days since 1970-01-01
(the standard civil-from-days conversion): `(year, month, day)`. -/
def civilFromDays (z : Int) : Int × Nat × Nat :=
  let z' := z + 719468
  let era := z'.fdiv 146097
  let doe := (z' - era * 146097).toNat
  let yoe := (doe - doe / 1460 + doe / 36524 - doe / 146096) / 365
  let doy := doe - (365 * yoe + yoe / 4 - yoe / 100)
  let mp := (5 * doy + 2) / 153
  let dd := doy - (153 * mp + 2) / 5 + 1
  let mm := if mp < 10 then mp + 3 else mp - 9
  let yy := (yoe : Int) + era * 400 + (if mm ≤ 2 then 1 else 0)
  (yy, mm, dd)

/-- Modelled from the source's
`datetime.datetime.fromtimestamp(t / 1000.0).isoformat()` applied to an
integer count `t` of epoch milliseconds.  The source converts in the local
timezone of the machine; that environment dependence is modelled as UTC.
The fractional part of `t / 1000.0` becomes the microsecond field, which
`isoformat` prints only when nonzero. -/
def isoOfMillis (t : Int) : String :=
  let secs := t.fdiv 1000
  let micro := (t.emod 1000).toNat * 1000
  let days := secs.fdiv 86400
  let sod := (secs.emod 86400).toNat
  let ymd := civilFromDays days
  let yearStr := if ymd.1 < 0 then "-" ++ padNum 4 (-ymd.1).toNat else padNum 4 ymd.1.toNat
  yearStr ++ "-" ++ padNum 2 ymd.2.1 ++ "-" ++ padNum 2 ymd.2.2 ++
    "T" ++ padNum 2 (sod / 3600) ++ ":" ++ padNum 2 (sod % 3600 / 60) ++
    ":" ++ padNum 2 (sod % 60) ++
    (if micro = 0 then "" else "." ++ padNum 6 micro)

/-- `OrderedDict` assignment `obj[k] = v`: replace in place when the key
exists (keeping its position), otherwise append at the end. -/
def odInsert (es : List (String × KValue)) (k : String) (v : KValue) :
    List (String × KValue) :=
  match es with
  | [] => [(k, v)]
  | (k', v') :: rest =>
      if k' = k then (k, v) :: rest else (k', v') :: odInsert rest k v

/-- Dictionary lookup (first, hence unique, occurrence of the key). -/
def odLookup (es : List (String × KValue)) (k : String) : Option KValue :=
  match es with
  | [] => none
  | (k', v') :: rest => if k' = k then some v' else odLookup rest k

/-- The source's `first_value != 1` comparison under Python equality:
`1`, `True`, `1.0` (either float width) all compare equal to `1`. -/
def pyEqOne : KValue → Bool
  | .int n => n == 1
  | .bool b => b
  | .float 8 bits => bits == 0x3FF0000000000000
  | .float 4 bits => bits == 0x3F800000
  | _ => false

/-- Number of iterations of Python `range(v)`: an `int` (negative counts
iterate zero times) or a `bool` (`True` is `1`); anything else raises
`TypeError`. -/
def rangeCount : KValue → Except Err Nat
  | .int n => .ok n.toNat
  | .bool b => .ok (if b then 1 else 0)
  | _ => .error .typeError

/-! ## Object reconstruction (`decode_object`)

Each branch of the source's `decode_object` name dispatch becomes one
`rule…` definition consuming the children list front-to-back.  A rule
returns the constructed object together with the children it did not
consume; `decodeObject` then applies the source's trailing
`if len(val): raise` check. -/

/-- `val.pop(0)`: the first unconsumed child.  Python raises `IndexError`
on an empty list; the rule for `name` is what demanded the child, so the
failure is `missingValue name` per the specification's taxonomy. -/
def pop (name : String) : List KValue → Except Err (KValue × List KValue)
  | [] => .error (.missingValue name)
  | v :: rest => .ok (v, rest)

/-- `[val.pop(0) for _ in range(n)]` once `n` is known. -/
def popList (name : String) : Nat → List KValue → Except Err (List KValue × List KValue)
  | 0, val => .ok ([], val)
  | n + 1, val =>
    match pop name val with
    | .error e => .error e
    | .ok (v, rest) =>
      match popList name n rest with
      | .error e => .error e
      | .ok (xs, rest') => .ok (v :: xs, rest')

/-- `[val.pop(0) for _ in range(val.pop(0))]`: a count-prefixed list. -/
def popCounted (name : String) (val : List KValue) :
    Except Err (List KValue × List KValue) := do
  let (cnt, val) ← pop name val
  let n ← rangeCount cnt
  popList name n val

/-- `val.pop(0)[key]`: subscripting a popped child, `KeyError` when the
key is absent and `TypeError` when the child is not a dictionary. -/
def popSub (name key : String) (val : List KValue) :
    Except Err (KValue × List KValue) := do
  let (v, rest) ← pop name val
  match v with
  | .dict es =>
    match odLookup es key with
    | some x => .ok (x, rest)
    | none => .error (.keyError key)
  | _ => .error .typeError

/-- `[val.pop(0)[key] for _ in range(n)]`. -/
def popSubList (name key : String) : Nat → List KValue → Except Err (List KValue × List KValue)
  | 0, val => .ok ([], val)
  | n + 1, val => do
    let (v, rest) ← popSub name key val
    let (xs, rest') ← popSubList name key n rest
    .ok (v :: xs, rest')

/-- Count-prefixed version of `popSubList`. -/
def popCountedSub (name key : String) (val : List KValue) :
    Except Err (List KValue × List KValue) := do
  let (cnt, val) ← pop name val
  let n ← rangeCount cnt
  popSubList name key n val

/-- `datetime.datetime.fromtimestamp(val.pop(0) / 1000.0).isoformat()` on
a popped epoch-millisecond child, without sentinel handling.  A Python
`bool` is a numeric `0`/`1`; a non-numeric child raises `TypeError`
(opaque float timestamps are likewise not modelled). -/
def popTime (name : String) (val : List KValue) :
    Except Err (KValue × List KValue) := do
  let (v, rest) ← pop name val
  match v with
  | .int t => .ok (.str (isoOfMillis t), rest)
  | .bool b => .ok (.str (isoOfMillis (if b then 1 else 0)), rest)
  | _ => .error .typeError

/-- The sentineled form: `… .isoformat() if time != -1 else None`. -/
def popTimeOrNull (name : String) (val : List KValue) :
    Except Err (KValue × List KValue) := do
  let (v, rest) ← pop name val
  match v with
  | .int t => .ok (if t = -1 then .null else .str (isoOfMillis t), rest)
  | .bool b => .ok (.str (isoOfMillis (if b then 1 else 0)), rest)
  | _ => .error .typeError

/-- Python equality with `-1` (`timezone != -1`): ints, and `-1.0` at
either float width; booleans are `0`/`1` and never equal `-1`. -/
def pyEqNegOne : KValue → Bool
  | .int n => n == -1
  | .float 8 bits => bits == 0xBFF0000000000000
  | .float 4 bits => bits == 0xBF800000
  | _ => false

/-- The source's `decode_position`: currently the identity pass-through. -/
def decodePosition (p : KValue) : KValue := p

/-- `ANNOT_CLASS_NAMES` of the source. -/
def annotClassNames : Int → Option String
  | 0 => some "annotation.personal.bookmark"
  | 1 => some "annotation.personal.highlight"
  | 2 => some "annotation.personal.note"
  | 3 => some "annotation.personal.clip_article"
  | 10 => some "annotation.personal.handwritten_note"
  | 11 => some "annotation.personal.sticky_note"
  | _ => none

/-- `ANNOT_CLASS_NAMES.values()`. -/
def annotClassValues : List String :=
  ["annotation.personal.bookmark", "annotation.personal.highlight",
   "annotation.personal.note", "annotation.personal.clip_article",
   "annotation.personal.handwritten_note", "annotation.personal.sticky_note"]

/-- One `annotation` element of the interval-tree list: must be a
single-entry dictionary keyed by the annotation class name, whose payload
is appended; any other shape raises the malformed-annotation error. -/
def unwrapAnnots (cls : String) : List KValue → Except Err (List KValue)
  | [] => .ok []
  | a :: rest =>
    match a with
    | .dict es =>
      if es.length = 1 then
        match odLookup es cls with
        | some payload => (unwrapAnnots cls rest).map (fun xs => payload :: xs)
        | none => .error .malformedAnnot
      else .error .malformedAnnot
    | _ => .error .malformedAnnot

/-- The generic key/value-map loop:
`for _ in range(n): k = val.pop(0); obj[k] = val.pop(0)`.
Dictionary keys in this embedding are strings, which covers every store
this format produces; a non-string key is modelled as `TypeError`. -/
def kvLoop (name : String) : Nat → List KValue → List (String × KValue) →
    Except Err (List (String × KValue) × List KValue)
  | 0, val, acc => .ok (acc, val)
  | n + 1, val, acc => do
    let (k, val) ← pop name val
    match k with
    | .str ks => do
      let (v, val) ← pop name val
      kvLoop name n val (odInsert acc ks v)
    | _ => .error .typeError

/-- The `annotation.cache.object` loop body: an annotation-type code
mapped through `ANNOT_CLASS_NAMES` (unknown codes are fatal), then one
child subscripted at `"saved.avl.interval.tree"` whose list elements are
unwrapped by `unwrapAnnots` and stored under the class name. -/
def annotCacheLoop (name : String) : Nat → List KValue → List (String × KValue) →
    Except Err (List (String × KValue) × List KValue)
  | 0, val, acc => .ok (acc, val)
  | n + 1, val, acc => do
    let (tv, val) ← pop name val
    let t ← match tv with
      | .int t => pure t
      | .bool b => pure (if b then (1 : Int) else 0)
      | _ => .error .typeError
    match annotClassNames t with
    | none => .error (.unknownAnnotationType t)
    | some cls => do
      let (tree, val) ← popSub name "saved.avl.interval.tree" val
      match tree with
      | .list items => do
        let payloads ← unwrapAnnots cls items
        annotCacheLoop name n val (odInsert acc cls (.list payloads))
      | _ => .error .typeError

/-- Pass-through rules (single-value stores and the single-value JSON
stores): the object is the single popped child, unwrapped. -/
def ruleSingle (name : String) (val : List KValue) :
    Except Err (KValue × List KValue) :=
  pop name val

/-- The generic key/value-map rule (`dict.prefs.v2`, `EndActions`,
`ReaderMetrics`, `StartActions`, `Translator`, `Wikipedia`). -/
def ruleKv (name : String) (val : List KValue) :
    Except Err (KValue × List KValue) := do
  let (cnt, val) ← pop name val
  let n ← rangeCount cnt
  let (acc, rest) ← kvLoop name n val []
  .ok (.dict acc, rest)

/-- `erl`: single child through the position hook. -/
def ruleErl (val : List KValue) : Except Err (KValue × List KValue) := do
  let (p, rest) ← pop "erl" val
  .ok (decodePosition p, rest)

/-- `lpr`: a string first child is the legacy position-only encoding; an
integer (or boolean, numerically `0`/`1`) first child is a version
discriminator, `≤ 2` meaning position-then-time; larger versions are
fatal.  (Python would compare a float version numerically; opaque float
bits are modelled as `TypeError`, as is the `TypeError` Python raises
when ordering a list, dict or `None` against `2`.) -/
def ruleLpr (val : List KValue) : Except Err (KValue × List KValue) := do
  let (version, val) ← pop "lpr" val
  match version with
  | .str s => .ok (.dict [("position", decodePosition (.str s))], val)
  | .int n =>
    if n ≤ 2 then do
      let (p, val) ← pop "lpr" val
      let (tval, val) ← popTimeOrNull "lpr" val
      .ok (.dict [("position", decodePosition p), ("time", tval)], val)
    else .error (.unknownLprVersion n)
  | .bool _ => do
    let (p, val) ← pop "lpr" val
    let (tval, val) ← popTimeOrNull "lpr" val
    .ok (.dict [("position", decodePosition p), ("time", tval)], val)
  | _ => .error .typeError

/-- `fpr` / `updated_lpr`: position, sentineled time, sentineled raw
timezone offset, country, device. -/
def ruleFpr (name : String) (val : List KValue) :
    Except Err (KValue × List KValue) := do
  let (p, val) ← pop name val
  let (tval, val) ← popTimeOrNull name val
  let (tz, val) ← pop name val
  let (country, val) ← pop name val
  let (device, val) ← pop name val
  .ok (.dict [("position", decodePosition p), ("time", tval),
    ("timeZoneOffset", if pyEqNegOne tz then .null else tz),
    ("country", country), ("device", device)], val)

/-- `annotation.cache.object`. -/
def ruleAnnotCache (val : List KValue) : Except Err (KValue × List KValue) := do
  let (cnt, val) ← pop "annotation.cache.object" val
  let n ← rangeCount cnt
  let (acc, rest) ← annotCacheLoop "annotation.cache.object" n val []
  .ok (.dict acc, rest)

/-- `saved.avl.interval.tree`: a count-prefixed raw list. -/
def ruleAvlTree (val : List KValue) : Except Err (KValue × List KValue) := do
  let (xs, rest) ← popCounted "saved.avl.interval.tree" val
  .ok (.list xs, rest)

/-- The annotation payload rules (one per class name): positions, two
non-sentineled timestamps, a template, and for three classes one
class-specific trailing field. -/
def ruleAnnotPayload (name : String) (val : List KValue) :
    Except Err (KValue × List KValue) := do
  let (s, val) ← pop name val
  let (e, val) ← pop name val
  let (ct, val) ← popTime name val
  let (mt, val) ← popTime name val
  let (template, val) ← pop name val
  let base := [("startPosition", decodePosition s), ("endPosition", decodePosition e),
    ("creationTime", ct), ("lastModificationTime", mt), ("template", template)]
  if name = "annotation.personal.note" then do
    let (x, val) ← pop name val
    .ok (.dict (base ++ [("note", x)]), val)
  else if name = "annotation.personal.handwritten_note" then do
    let (x, val) ← pop name val
    .ok (.dict (base ++ [("handwritten_note_nbk_ref", x)]), val)
  else if name = "annotation.personal.sticky_note" then do
    let (x, val) ← pop name val
    .ok (.dict (base ++ [("sticky_note_nbk_ref", x)]), val)
  else .ok (.dict base, val)

/-- `apnx.key`. -/
def ruleApnx (val : List KValue) : Except Err (KValue × List KValue) := do
  let name := "apnx.key"
  let (asin, val) ← pop name val
  let (cde, val) ← pop name val
  let (sidecar, val) ← pop name val
  let (opn, val) ← popCounted name val
  let (first, val) ← pop name val
  let (u1, val) ← pop name val
  let (u2, val) ← pop name val
  let (pageMap, val) ← pop name val
  .ok (.dict [("asin", asin), ("cdeType", cde), ("sidecarAvailable", sidecar),
    ("oPNToPosition", .list opn), ("first", first), ("unknown1", u1),
    ("unknown2", u2), ("pageMap", pageMap)], val)

/-- `fixed.layout.data`. -/
def ruleFixedLayout (val : List KValue) : Except Err (KValue × List KValue) := do
  let name := "fixed.layout.data"
  let (a, val) ← pop name val
  let (b, val) ← pop name val
  let (c, val) ← pop name val
  .ok (.dict [("unknown1", a), ("unknown2", b), ("unknown3", c)], val)

/-- `sharing.limits`. -/
def ruleSharing (val : List KValue) : Except Err (KValue × List KValue) := do
  let (a, val) ← pop "sharing.limits" val
  .ok (.dict [("accumulated", a)], val)

/-- `language.store`. -/
def ruleLanguage (val : List KValue) : Except Err (KValue × List KValue) := do
  let name := "language.store"
  let (a, val) ← pop name val
  let (b, val) ← pop name val
  .ok (.dict [("language", a), ("unknown1", b)], val)

/-- `periodicals.view.state`. -/
def rulePeriodicals (val : List KValue) : Except Err (KValue × List KValue) := do
  let name := "periodicals.view.state"
  let (a, val) ← pop name val
  let (b, val) ← pop name val
  .ok (.dict [("unknown1", a), ("unknown2", b)], val)

/-- `font.prefs`: nine required fields, then up to seven optional trailing
fields each popped only while children remain (`if len(val): …`). -/
def ruleFontPrefs (val : List KValue) : Except Err (KValue × List KValue) := do
  let name := "font.prefs"
  let (typeface, val) ← pop name val
  let (lineSp, val) ← pop name val
  let (size, val) ← pop name val
  let (align, val) ← pop name val
  let (insetTop, val) ← pop name val
  let (insetLeft, val) ← pop name val
  let (insetBottom, val) ← pop name val
  let (insetRight, val) ← pop name val
  let (u1, val) ← pop name val
  let base := [("typeface", typeface), ("lineSp", lineSp), ("size", size),
    ("align", align), ("insetTop", insetTop), ("insetLeft", insetLeft),
    ("insetBottom", insetBottom), ("insetRight", insetRight), ("unknown1", u1)]
  let step := fun (key : String) (st : List (String × KValue) × List KValue) =>
    match st.2 with
    | [] => st
    | v :: rest => (st.1 ++ [(key, v)], rest)
  let st := step "bold" (base, val)
  let st := step "userSideloadableFont" st
  let st := step "customFontIndex" st
  let st := step "mobi7SystemFont" st
  let st := step "mobi7RestoreFont" st
  let st := step "readingPresetSelected" st
  let st := step "unknown2" st
  .ok (.dict st.1, st.2)

/-- `purchase.state.data`. -/
def rulePurchase (val : List KValue) : Except Err (KValue × List KValue) := do
  let name := "purchase.state.data"
  let (state, val) ← pop name val
  let (t, val) ← popTime name val
  .ok (.dict [("state", state), ("time", t)], val)

/-- `timer.data.store`. -/
def ruleTimerStore (val : List KValue) : Except Err (KValue × List KValue) := do
  let name := "timer.data.store"
  let (onFlag, val) ← pop name val
  let (model, val) ← pop name val
  let (version, val) ← pop name val
  .ok (.dict [("on", onFlag), ("readingTimerModel", model), ("version", version)], val)

/-- `timer.data.store.v2`. -/
def ruleTimerStoreV2 (val : List KValue) : Except Err (KValue × List KValue) := do
  let name := "timer.data.store.v2"
  let (onFlag, val) ← pop name val
  let (model, val) ← pop name val
  let (version, val) ← pop name val
  let (lastOption, val) ← pop name val
  .ok (.dict [("on", onFlag), ("readingTimerModel", model), ("version", version),
    ("lastOption", lastOption)], val)

/-- `timer.model`. -/
def ruleTimerModel (val : List KValue) : Except Err (KValue × List KValue) := do
  let name := "timer.model"
  let (version, val) ← pop name val
  let (totalTime, val) ← pop name val
  let (totalWords, val) ← pop name val
  let (totalPercent, val) ← pop name val
  let (avg, val) ← popSub name "timer.average.calculator" val
  .ok (.dict [("version", version), ("totalTime", totalTime),
    ("totalWords", totalWords), ("totalPercent", totalPercent),
    ("averageCalculator", avg)], val)

/-- `timer.average.calculator`: two count-prefixed sample lists, then
count-prefixed lists of subscripted normal-distribution and outlier
children. -/
def ruleTimerAvg (val : List KValue) : Except Err (KValue × List KValue) := do
  let name := "timer.average.calculator"
  let (s1, val) ← popCounted name val
  let (s2, val) ← popCounted name val
  let (nd, val) ← popCountedSub name "timer.average.calculator.distribution.normal" val
  let (outs, val) ← popCountedSub name "timer.average.calculator.outliers" val
  .ok (.dict [("samples1", .list s1), ("samples2", .list s2),
    ("normalDistributions", .list nd), ("outliers", .list outs)], val)

/-- `timer.average.calculator.distribution.normal`. -/
def ruleDistNormal (val : List KValue) : Except Err (KValue × List KValue) := do
  let name := "timer.average.calculator.distribution.normal"
  let (count, val) ← pop name val
  let (sum, val) ← pop name val
  let (sq, val) ← pop name val
  .ok (.dict [("count", count), ("sum", sum), ("sumOfSquares", sq)], val)

/-- `timer.average.calculator.outliers`: a count-prefixed raw list. -/
def ruleOutliers (val : List KValue) : Except Err (KValue × List KValue) := do
  let (xs, rest) ← popCounted "timer.average.calculator.outliers" val
  .ok (.list xs, rest)

/-- `book.info.store`. -/
def ruleBookInfo (val : List KValue) : Except Err (KValue × List KValue) := do
  let name := "book.info.store"
  let (w, val) ← pop name val
  let (p, val) ← pop name val
  .ok (.dict [("numberOfWords", w), ("percentOfBook", p)], val)

/-- `page.history.store`: a count-prefixed list of children each
subscripted at `"page.history.record"`. -/
def rulePageHistoryStore (val : List KValue) : Except Err (KValue × List KValue) := do
  let (xs, rest) ← popCountedSub "page.history.store" "page.history.record" val
  .ok (.list xs, rest)

/-- `page.history.record`. -/
def rulePageHistoryRecord (val : List KValue) : Except Err (KValue × List KValue) := do
  let name := "page.history.record"
  let (p, val) ← pop name val
  let (t, val) ← popTime name val
  .ok (.dict [("position", decodePosition p), ("time", t)], val)

/-- `reader.state.preferences`. -/
def ruleReaderPrefs (val : List KValue) : Except Err (KValue × List KValue) := do
  let name := "reader.state.preferences"
  let (fp, val) ← pop name val
  let (l, val) ← pop name val
  let (r, val) ← pop name val
  let (t, val) ← pop name val
  let (b, val) ← pop name val
  let (u, val) ← pop name val
  .ok (.dict [("fontPreferences", fp), ("leftMargin", l), ("rightMargin", r),
    ("topMargin", t), ("bottomMargin", b), ("unknown1", u)], val)

/-- Name sets of the source's dispatch. -/
def singleNames : List String :=
  ["clock.data.store", "dictionary", "lpu", "pdf.contrast", "sync_lpr",
   "tpz.line.spacing", "XRAY_OTA_UPDATE_STATE", "XRAY_SHOWING_SPOILERS",
   "XRAY_SORTING_STATE", "XRAY_TAB_STATE"]

/-- Names decoded by the generic key/value-map rule. -/
def kvNames : List String :=
  ["dict.prefs.v2", "EndActions", "ReaderMetrics", "StartActions",
   "Translator", "Wikipedia"]

/-- Names whose single child is a JSON string passed through. -/
def jsonNames : List String :=
  ["buy.asin.response.data", "next.in.series.info.data", "price.info.data"]

/-- A recognized rule's result, with the (empty) diagnostics of that
rule attached. -/
def noDiag (r : Except Err (KValue × List KValue)) :
    Except Err (KValue × List KValue × List Diag) :=
  r.map (fun p => (p.1, p.2, []))

/-- The name dispatch of `decode_object`, in source order, up to but not
including the trailing excess-values check.  The result is the
constructed object, the unconsumed children and the logged diagnostics:
a recognized rule logs nothing, the fallback for an unrecognized name
logs `UnknownStructure`, passes the raw children list through as the
object and leaves nothing unconsumed (`obj = val; val = []`). -/
def runRule (name : String) (val : List KValue) :
    Except Err (KValue × List KValue × List Diag) :=
  if singleNames.contains name then noDiag (ruleSingle name val)
  else if kvNames.contains name then noDiag (ruleKv name val)
  else if jsonNames.contains name then noDiag (ruleSingle name val)
  else if name = "erl" then noDiag (ruleErl val)
  else if name = "lpr" then noDiag (ruleLpr val)
  else if name = "fpr" || name = "updated_lpr" then noDiag (ruleFpr name val)
  else if name = "annotation.cache.object" then noDiag (ruleAnnotCache val)
  else if name = "saved.avl.interval.tree" then noDiag (ruleAvlTree val)
  else if annotClassValues.contains name then noDiag (ruleAnnotPayload name val)
  else if name = "apnx.key" then noDiag (ruleApnx val)
  else if name = "fixed.layout.data" then noDiag (ruleFixedLayout val)
  else if name = "sharing.limits" then noDiag (ruleSharing val)
  else if name = "language.store" then noDiag (ruleLanguage val)
  else if name = "periodicals.view.state" then noDiag (rulePeriodicals val)
  else if name = "font.prefs" then noDiag (ruleFontPrefs val)
  else if name = "purchase.state.data" then noDiag (rulePurchase val)
  else if name = "timer.data.store" then noDiag (ruleTimerStore val)
  else if name = "timer.data.store.v2" then noDiag (ruleTimerStoreV2 val)
  else if name = "timer.model" then noDiag (ruleTimerModel val)
  else if name = "timer.average.calculator" then noDiag (ruleTimerAvg val)
  else if name = "timer.average.calculator.distribution.normal" then
    noDiag (ruleDistNormal val)
  else if name = "timer.average.calculator.outliers" then noDiag (ruleOutliers val)
  else if name = "book.info.store" then noDiag (ruleBookInfo val)
  else if name = "page.history.store" then noDiag (rulePageHistoryStore val)
  else if name = "page.history.record" then noDiag (rulePageHistoryRecord val)
  else if name = "reader.state.preferences" then noDiag (ruleReaderPrefs val)
  else .ok (.list val, [], [.unknownStructure name])

/-- Whether `decode_object` has a rule for the name (every branch of the
dispatch except the fallback). -/
def isKnownName (name : String) : Bool :=
  singleNames.contains name || kvNames.contains name ||
  jsonNames.contains name || name = "erl" || name = "lpr" ||
  name = "fpr" || name = "updated_lpr" ||
  name = "annotation.cache.object" || name = "saved.avl.interval.tree" ||
  annotClassValues.contains name || name = "apnx.key" ||
  name = "fixed.layout.data" || name = "sharing.limits" ||
  name = "language.store" || name = "periodicals.view.state" ||
  name = "font.prefs" || name = "purchase.state.data" ||
  name = "timer.data.store" || name = "timer.data.store.v2" ||
  name = "timer.model" || name = "timer.average.calculator" ||
  name = "timer.average.calculator.distribution.normal" ||
  name = "timer.average.calculator.outliers" || name = "book.info.store" ||
  name = "page.history.store" || name = "page.history.record" ||
  name = "reader.state.preferences"

/-- `decode_object`: run the name's rule, then the trailing
`if len(val): raise Exception("Excess values …")` check; the decoded
result is the single-entry dictionary `{name: obj}`. -/
def decodeObject (name : String) (val : List KValue) :
    Except Err (KValue × List Diag) :=
  match runRule name val with
  | .error e => .error e
  | .ok (obj, rest, ds) =>
    if rest.isEmpty then .ok (.dict [(name, obj)], ds)
    else .error (.excessValues name)

/-! ## Tagged primitive decoding (`decode_next`)

The source recurses into itself for nested objects; the embedding makes
that recursion explicit with a fuel parameter.  Running out of fuel is the
embedding artifact `fuelOut`, never a behaviour of the program: every
theorem quantifies over, or supplies, sufficient fuel. -/

/-- The tag acquisition of `decode_next`: the supplied datatype when
given (recursive calls), otherwise one signed byte read from the cursor. -/
def readTag (d : Deserializer) (dty : Option Int) :
    Except Err (Int × Deserializer) :=
  match dty with
  | some t => .ok (t, d)
  | none => d.unpackSigned 1 true

mutual

/-- `decode_next(datatype)`: read a one-byte type tag unless one is
supplied, then decode one value.  Tag `-2` decodes a name, the children
up to the peeked `-1` terminator, consumes the terminator and hands the
pair to `decodeObject`. -/
def decodeNext : Nat → Deserializer → Option Int →
    Except Err (KValue × Deserializer × List Diag)
  | 0, _, _ => .error .fuelOut
  | fuel + 1, d0, dty =>
    match readTag d0 dty with
    | .error e => .error e
    | .ok (t, d) =>
      if t = 0 then
        match d.unpackSigned 1 true with
        | .error e => .error e
        | .ok (b, d) =>
          if b = 0 then .ok (.bool false, d, [])
          else if b = 1 then .ok (.bool true, d, [])
          else .error (.invalidBoolean b)
      else if t = 1 then
        (d.unpackSigned 4 true).map (fun p => (.int p.1, p.2, []))
      else if t = 2 then
        (d.unpackSigned 8 true).map (fun p => (.int p.1, p.2, []))
      else if t = 3 then
        match decodeNext fuel d (some 0) with
        | .error e => .error e
        | .ok (flag, d, _) =>
          match flag with
          | .bool true => .ok (.str "", d, [])
          | .bool false =>
            match d.unpackUnsigned 2 with
            | .error e => .error e
            | .ok (len, d) =>
              match d.extract (len : Int) true with
              | .error e => .error e
              | .ok (bs, d) =>
                match utf8Decode bs with
                | some s => .ok (.str s, d, [])
                | none => .error .invalidUtf8
          | _ => .error .typeError
      else if t = 4 then
        (d.unpackFloatBits 8).map (fun p => (.float 8 p.1, p.2, []))
      else if t = 5 then
        (d.unpackSigned 2 true).map (fun p => (.int p.1, p.2, []))
      else if t = 6 then
        (d.unpackFloatBits 4).map (fun p => (.float 4 p.1, p.2, []))
      else if t = 7 then
        (d.unpackSigned 1 true).map (fun p => (.int p.1, p.2, []))
      else if t = 9 then
        match d.unpackUnsigned 1 with
        | .error e => .error e
        | .ok (b, d) =>
          if b < 0x80 then .ok (.str (String.mk [Char.ofNat b]), d, [])
          else .error .invalidUtf8
      else if t = -2 then
        match decodeNext fuel d (some 3) with
        | .error e => .error e
        | .ok (nameV, d, ds0) =>
          match nameV with
          | .str name =>
            match decodeChildren fuel d with
            | .error e => .error e
            | .ok (children, d, ds1) =>
              match d.unpackSigned 1 true with
              | .error e => .error e
              | .ok (_, d) =>
                match decodeObject name children with
                | .error e => .error e
                | .ok (v, ds2) => .ok (v, d, ds0 ++ ds1 ++ ds2)
          | _ => .error .typeError
      else .error (.unknownTag t)

/-- The object-children loop of `decode_next`:
`while peek() != OBJECT_END: val.append(decode_next())`. -/
def decodeChildren : Nat → Deserializer →
    Except Err (List KValue × Deserializer × List Diag)
  | 0, _ => .error .fuelOut
  | fuel + 1, d =>
    match d.unpackSigned 1 false with
    | .error e => .error e
    | .ok (t, _) =>
      if t = -1 then .ok ([], d, [])
      else
        match decodeNext fuel d none with
        | .error e => .error e
        | .ok (v, d, ds) =>
          match decodeChildren fuel d with
          | .error e => .error e
          | .ok (vs, d, ds') => .ok (v :: vs, d, ds ++ ds')

end

/-! ## Top-level driver (`deserialize`) -/

/-- The fixed 8-byte signature. -/
def SIGNATURE : List Nat := [0x00, 0x00, 0x00, 0x00, 0x00, 0x1A, 0xB1, 0x26]

/-- `val.items()` of a decoded top-level value: the entries when it is a
dictionary, otherwise the `AttributeError` Python would raise. -/
def asDictItems : KValue → Except Err (List (String × KValue))
  | .dict es => .ok es
  | _ => .error .typeError

/-- The top-level merge loop body: for each `(k, v)` item, a key already
present in the accumulated mapping is the fatal duplicate-item error;
otherwise the pair is appended, preserving encounter order. -/
def mergeEntries (acc : List (String × KValue)) :
    List (String × KValue) → Except Err (List (String × KValue))
  | [] => .ok acc
  | (k, v) :: rest =>
    if (acc.map Prod.fst).contains k then .error (.duplicateKey k)
    else mergeEntries (acc ++ [(k, v)]) rest

/-- Merging a sequence of decoded top-level values (each one's items) into
one mapping, exactly as the source's `for _ in range(value_cnt)` loop
does between decodes. -/
def mergeTop (vals : List (List (String × KValue))) :
    Except Err (List (String × KValue)) :=
  vals.foldlM mergeEntries []

/-- The driver loop: decode the next top-level value, merge its items,
repeat; after the declared count, remaining bytes only add a non-fatal
`trailingBytes` diagnostic.  Returns the mapping, the diagnostics and the
count of unconsumed bytes. -/
def topLoop (fuel : Nat) :
    Nat → Deserializer → List (String × KValue) → List Diag →
    Except Err (List (String × KValue) × List Diag × Nat)
  | 0, d, acc, ds =>
    .ok (acc, ds ++ (if d.remaining ≠ 0 then [.trailingBytes d.remaining] else []),
         d.remaining)
  | n + 1, d, acc, ds =>
    match decodeNext fuel d none with
    | .error e => .error e
    | .ok (v, d, ds') =>
      match asDictItems v with
      | .error e => .error e
      | .ok items =>
        match mergeEntries acc items with
        | .error e => .error e
        | .ok acc' => topLoop fuel n d acc' (ds ++ ds')

/-- The stage of `deserialize` after the version check: decode the
top-level count, then run the driver loop. -/
def deserializeFromCount (fuel : Nat) (d : Deserializer) (ds : List Diag) :
    Except Err (List (String × KValue) × List Diag × Nat) :=
  match decodeNext fuel d none with
  | .error e => .error e
  | .ok (cnt, d, ds') =>
    match rangeCount cnt with
    | .error e => .error e
    | .ok n => topLoop fuel n d [] (ds ++ ds')

/-- `KindleReaderDataStore.deserialize`, with the final unconsumed byte
count also returned: extract and check the signature, decode one value
that must compare equal to `1`, then decode and merge the declared number
of top-level values. -/
def deserializeAux (fuel : Nat) (data : List Nat) :
    Except Err (List (String × KValue) × List Diag × Nat) :=
  let d : Deserializer := ⟨data, 0⟩
  match d.extract (SIGNATURE.length : Int) true with
  | .error e => .error e
  | .ok (sig, d) =>
    if sig ≠ SIGNATURE then .error .badSignature
    else
      match decodeNext fuel d none with
      | .error e => .error e
      | .ok (first, d, ds0) =>
        if pyEqOne first then deserializeFromCount fuel d ds0
        else .error (.unsupportedVersion first)

/-- `deserialize` as the caller sees it: the ordered top-level mapping and
the logged diagnostics. -/
def deserializeData (fuel : Nat) (data : List Nat) :
    Except Err (List (String × KValue) × List Diag) :=
  (deserializeAux fuel data).map (fun r => (r.1, r.2.1))

/-- A minimal well-formed store: signature, version `1`, one top-level
entry named `clock.data.store` wrapping `Int32 42`. -/
def sampleStore : List Nat :=
  SIGNATURE ++ [1, 0, 0, 0, 1] ++ [1, 0, 0, 0, 1] ++
  [254, 0, 0, 16, 99, 108, 111, 99, 107, 46, 100, 97, 116, 97, 46, 115,
   116, 111, 114, 101] ++ [1, 0, 0, 0, 42] ++ [255]

/-! ## Byte-cursor operation sequences

For the cursor invariant, the public operations of `Deserializer` are
reified: fixed-width reads of every format the source uses (optionally
non-advancing, i.e. peeks) and byte extraction. -/

/-- One byte-cursor operation. -/
inductive CursorOp where
  | opExtract (size : Int) (advance : Bool)
  | opSigned (width : Nat) (advance : Bool)
  | opUnsigned (width : Nat)
  | opFloatBits (width : Nat)
deriving Repr

/-- Apply one cursor operation, keeping only the resulting cursor. -/
def stepOp (d : Deserializer) : CursorOp → Except Err Deserializer
  | .opExtract size advance => (d.extract size advance).map Prod.snd
  | .opSigned width advance => (d.unpackSigned width advance).map Prod.snd
  | .opUnsigned width => (d.unpackUnsigned width).map Prod.snd
  | .opFloatBits width => (d.unpackFloatBits width).map Prod.snd

/-- Run a sequence of cursor operations; a failing operation raises in the
source, so the sequence stops there with the cursor unchanged by the
failing operation. -/
def runOps (d : Deserializer) : List CursorOp → Deserializer
  | [] => d
  | op :: ops =>
    match stepOp d op with
    | .error _ => d
    | .ok d' => runOps d' ops

/-- A cursor evolution that keeps the buffer and stays within it: the
relation every successful read step satisfies. -/
def CursorStep (d d' : Deserializer) : Prop :=
  d'.buffer = d.buffer ∧
  (d.offset ≤ d.buffer.length → d'.offset ≤ d.buffer.length)

/-! ## Derived forms used to state properties of the key/value rule -/

/-- Repeated `OrderedDict` assignment of each pair in order (what the
key/value loop of `decode_object` performs on its accumulator). -/
def odInsertAll (acc : List (String × KValue)) (ps : List (String × KValue)) :
    List (String × KValue) :=
  ps.foldl (fun a p => odInsert a p.1 p.2) acc

/-- The flat child encoding of a pair list as the key/value rule reads
it: key string, value, key string, value, … -/
def kvEncode (ps : List (String × KValue)) : List KValue :=
  ps.foldr (fun p acc => .str p.1 :: p.2 :: acc) []

/-- The last value paired with a key in a pair list, if any. -/
def lastVal (ps : List (String × KValue)) (k : String) : Option KValue :=
  ps.foldl (fun a p => if p.1 = k then some p.2 else a) none

/-! ## Reduction lemmas for the `Except` plumbing -/

/-- Bind on a success reduces to the continuation. -/
@[simp] lemma except_bind_ok {α β : Type} (a : α) (f : α → Except Err β) :
    (Except.ok a >>= f) = f a := rfl

/-- Bind on a failure propagates the failure. -/
@[simp] lemma except_bind_error {α β : Type} (e : Err) (f : α → Except Err β) :
    ((Except.error e : Except Err α) >>= f) = .error e := rfl

/-- Map on a success applies the function. -/
@[simp] lemma except_map_ok {α β : Type} (a : α) (f : α → β) :
    Except.map f (Except.ok a : Except Err α) = .ok (f a) := rfl

/-- Map on a failure propagates the failure. -/
@[simp] lemma except_map_error {α β : Type} (e : Err) (f : α → β) :
    Except.map f (Except.error e : Except Err α) = .error e := rfl

/-! ## C6 / C7: the last-read-position record and the epoch sentinel -/

/-- C6: for `lpr`, a string first child is the legacy encoding and yields
only a `position` entry; an integer first child `≤ 2` is a version
discriminator and yields `position` from the next child and `time` from
the child after that (epoch millis with the `-1` sentinel); an integer
first child `> 2` fails with the unknown-lpr-version error. -/
theorem C6_lpr_rule :
    (∀ s : String, decodeObject "lpr" [.str s] =
      .ok (.dict [("lpr", .dict [("position", .str s)])], [])) ∧
    (∀ n : Int, n ≤ 2 → ∀ (p : KValue) (t : Int),
      decodeObject "lpr" [.int n, p, .int t] =
        .ok (.dict [("lpr", .dict [("position", p),
          ("time", if t = -1 then .null else .str (isoOfMillis t))])], [])) ∧
    (∀ n : Int, 2 < n → ∀ rest : List KValue,
      decodeObject "lpr" (.int n :: rest) =
        .error (.unknownLprVersion n)) := by
  refine ⟨fun s => rfl, fun n hn p t => ?_, fun n hn rest => ?_⟩
  · simp [decodeObject, runRule, ruleLpr, pop, popTimeOrNull, decodePosition,
      noDiag, hn, singleNames, kvNames, jsonNames, annotClassValues]
  · simp [decodeObject, runRule, ruleLpr, pop, noDiag,
      show ¬ n ≤ 2 from not_le.mpr hn, singleNames, kvNames, jsonNames,
      annotClassValues]

/-- C6 witness: version 2 with a concrete time, and version 3 failing. -/
theorem C6_lpr_rule_witness :
    decodeObject "lpr" [.int 2, .str "p", .int 0] =
      .ok (.dict [("lpr", .dict [("position", .str "p"),
        ("time", .str (isoOfMillis 0))])], []) ∧
    decodeObject "lpr" (.int 3 :: [.str "p"]) =
      .error (.unknownLprVersion 3) :=
  ⟨by
    have h := C6_lpr_rule.2.1 2 (by norm_num) (.str "p") 0
    simpa using h,
   C6_lpr_rule.2.2 3 (by norm_num) [.str "p"]⟩

/-- C7: wherever an epoch-millisecond field is decoded with sentinel
handling (`lpr` time, `fpr`/`updated_lpr` time and timeZoneOffset), the
value `-1` yields `null` and any other integer yields a non-null
converted value — an ISO-8601 string for the times, the raw offset for
timeZoneOffset; `-1` is never passed to the epoch conversion. -/
theorem C7_epoch_sentinel :
    (∀ name, (name = "fpr" ∨ name = "updated_lpr") →
      ∀ (p c dev : KValue) (t tz : Int),
      decodeObject name [p, .int t, .int tz, c, dev] =
        .ok (.dict [(name, .dict [("position", p),
          ("time", if t = -1 then .null else .str (isoOfMillis t)),
          ("timeZoneOffset", if tz = -1 then .null else .int tz),
          ("country", c), ("device", dev)])], [])) ∧
    (∀ (p : KValue) (t : Int),
      decodeObject "lpr" [.int 2, p, .int t] =
        .ok (.dict [("lpr", .dict [("position", p),
          ("time", if t = -1 then .null else .str (isoOfMillis t))])], [])) ∧
    (∀ t : Int, t ≠ -1 → (KValue.str (isoOfMillis t)) ≠ .null ∧
      (KValue.int t) ≠ .null) := by
  refine ⟨?_, ?_, fun t _ =>
    ⟨fun hc => KValue.noConfusion hc, fun hc => KValue.noConfusion hc⟩⟩
  · rintro name (rfl | rfl) p c dev t tz <;>
      simp [decodeObject, runRule, ruleFpr, pop, popTimeOrNull, pyEqNegOne,
        decodePosition, noDiag, singleNames, kvNames, jsonNames,
        annotClassValues]
  · intro p t
    simp [decodeObject, runRule, ruleLpr, pop, popTimeOrNull, decodePosition,
      noDiag, singleNames, kvNames, jsonNames, annotClassValues]

/-- C7 witness: `fpr` with time `1609459200000` and offset `-1`. -/
theorem C7_epoch_sentinel_witness :
    decodeObject "fpr" [.str "p", .int 1609459200000, .int (-1),
        .str "US", .str "dev"] =
      .ok (.dict [("fpr", .dict [("position", .str "p"),
        ("time", .str (isoOfMillis 1609459200000)),
        ("timeZoneOffset", .null),
        ("country", .str "US"), ("device", .str "dev")])], []) := by
  have h := C7_epoch_sentinel.1 "fpr" (Or.inl rfl) (.str "p") (.str "US")
    (.str "dev") 1609459200000 (-1)
  simpa using h

/-! ## C10: negative leading counts -/

/-- C10: in every count-prefixed rule (the generic key/value maps,
`saved.avl.interval.tree`, `annotation.cache.object`, `apnx.key`,
`timer.average.calculator`, `timer.average.calculator.outliers`,
`page.history.store`), a negative leading count behaves exactly like
zero: no further children are consumed for the collection, the collection
is empty, and the negative count itself never raises — remaining children
then hit the leftover-children failure instead. -/
theorem C10_negative_count (n : Int) (hn : n < 0) :
    (∀ name, kvNames.contains name = true → ∀ rest,
      runRule name (.int n :: rest) = .ok (.dict [], rest, [])) ∧
    (∀ rest, runRule "saved.avl.interval.tree" (.int n :: rest) =
      .ok (.list [], rest, [])) ∧
    (∀ rest, runRule "annotation.cache.object" (.int n :: rest) =
      .ok (.dict [], rest, [])) ∧
    (∀ rest, runRule "timer.average.calculator.outliers" (.int n :: rest) =
      .ok (.list [], rest, [])) ∧
    (∀ rest, runRule "page.history.store" (.int n :: rest) =
      .ok (.list [], rest, [])) ∧
    (∀ a c s f u1 u2 pm : KValue,
      decodeObject "apnx.key" [a, c, s, .int n, f, u1, u2, pm] =
        .ok (.dict [("apnx.key", .dict [("asin", a), ("cdeType", c),
          ("sidecarAvailable", s), ("oPNToPosition", .list []),
          ("first", f), ("unknown1", u1), ("unknown2", u2),
          ("pageMap", pm)])], [])) ∧
    (∀ n2 n3 n4 : Int, n2 < 0 → n3 < 0 → n4 < 0 →
      decodeObject "timer.average.calculator" [.int n, .int n2, .int n3, .int n4] =
        .ok (.dict [("timer.average.calculator", .dict [("samples1", .list []),
          ("samples2", .list []), ("normalDistributions", .list []),
          ("outliers", .list [])])], [])) ∧
    (∀ rest, rest ≠ [] →
      decodeObject "saved.avl.interval.tree" (.int n :: rest) =
        .error (.excessValues "saved.avl.interval.tree")) := by
  have h0 : n.toNat = 0 := Int.toNat_of_nonpos (le_of_lt hn)
  refine ⟨?_, ?_, ?_, ?_, ?_, ?_, ?_, ?_⟩
  · intro name h rest
    simp only [kvNames] at h
    simp at h
    rcases h with rfl|rfl|rfl|rfl|rfl|rfl <;>
      simp [runRule, ruleKv, pop, rangeCount, kvLoop, noDiag, h0,
        singleNames, kvNames, jsonNames, annotClassValues]
  · intro rest
    simp [runRule, ruleAvlTree, popCounted, popList, pop, rangeCount,
      noDiag, h0, singleNames, kvNames, jsonNames, annotClassValues]
  · intro rest
    simp [runRule, ruleAnnotCache, pop, rangeCount, annotCacheLoop, noDiag,
      h0, singleNames, kvNames, jsonNames, annotClassValues]
  · intro rest
    simp [runRule, ruleOutliers, popCounted, popList, pop, rangeCount,
      noDiag, h0, singleNames, kvNames, jsonNames, annotClassValues]
  · intro rest
    simp [runRule, rulePageHistoryStore, popCountedSub, popSubList, pop,
      rangeCount, noDiag, h0, singleNames, kvNames, jsonNames,
      annotClassValues]
  · intro a c s f u1 u2 pm
    simp [decodeObject, runRule, ruleApnx, popCounted, popList, pop,
      rangeCount, noDiag, h0, singleNames, kvNames, jsonNames,
      annotClassValues]
  · intro n2 n3 n4 h2 h3 h4
    simp [decodeObject, runRule, ruleTimerAvg, popCounted, popCountedSub,
      popSubList, popList, pop, rangeCount, noDiag, h0,
      Int.toNat_of_nonpos (le_of_lt h2), Int.toNat_of_nonpos (le_of_lt h3),
      Int.toNat_of_nonpos (le_of_lt h4), singleNames, kvNames, jsonNames,
      annotClassValues]
  · intro rest hne
    cases rest with
    | nil => exact absurd rfl hne
    | cons a as =>
      simp [decodeObject, runRule, ruleAvlTree, popCounted, popList, pop,
        rangeCount, noDiag, h0, singleNames, kvNames, jsonNames,
        annotClassValues]

/-- C10 witness: count `-1` in the interval-tree rule, with and without
leftover children, and in `dict.prefs.v2`. -/
theorem C10_negative_count_witness :
    runRule "saved.avl.interval.tree" [.int (-1)] = .ok (.list [], [], []) ∧
    runRule "dict.prefs.v2" [.int (-1), .str "k", .int 9] =
      .ok (.dict [], [.str "k", .int 9], []) ∧
    decodeObject "saved.avl.interval.tree" [.int (-1), .null] =
      .error (.excessValues "saved.avl.interval.tree") :=
  ⟨(C10_negative_count (-1) (by norm_num)).2.1 [],
   (C10_negative_count (-1) (by norm_num)).1 "dict.prefs.v2" rfl
     [.str "k", .int 9],
   (C10_negative_count (-1) (by norm_num)).2.2.2.2.2.2.2 [.null]
     (by simp)⟩

/-! ## C9: the key/value-map rule overwrites duplicate keys -/

/-- Looking up after an ordered insert: the inserted key sees the new
value, every other key is untouched. -/
lemma odLookup_odInsert (acc : List (String × KValue)) (k' : String)
    (v' : KValue) (k : String) :
    odLookup (odInsert acc k' v') k =
      if k' = k then some v' else odLookup acc k := by
  induction acc with
  | nil => simp [odInsert, odLookup]
  | cons hd tl ih =>
    obtain ⟨a, b⟩ := hd
    by_cases hak : a = k'
    · subst hak
      by_cases hk : a = k
      · subst hk
        simp [odInsert, odLookup]
      · simp [odInsert, odLookup, hk]
    · by_cases hk : a = k
      · subst hk
        have hkk : ¬ k' = a := fun hc => hak hc.symm
        simp [odInsert, odLookup, hak, hkk]
      · simp [odInsert, odLookup, hak, hk, ih]

/-- Looking up after inserting a whole pair list: the last pair with the
key wins, falling back to the accumulator. -/
lemma odLookup_odInsertAll (ps : List (String × KValue))
    (acc : List (String × KValue)) (k : String) :
    odLookup (odInsertAll acc ps) k =
      ps.foldl (fun a p => if p.1 = k then some p.2 else a) (odLookup acc k) := by
  induction ps generalizing acc with
  | nil => rfl
  | cons hd tl ih =>
    obtain ⟨k', v'⟩ := hd
    simp only [odInsertAll, List.foldl_cons]
    rw [show (List.foldl (fun a p => odInsert a p.1 p.2) (odInsert acc k' v') tl)
        = odInsertAll (odInsert acc k' v') tl from rfl,
      ih (odInsert acc k' v'), odLookup_odInsert]

/-- With an empty accumulator the lookup is exactly the last value. -/
lemma odLookup_odInsertAll_nil (ps : List (String × KValue)) (k : String) :
    odLookup (odInsertAll [] ps) k = lastVal ps k := by
  rw [odLookup_odInsertAll]
  rfl

/-- The key/value loop on an encoded pair list consumes exactly the
`2 · |ps|` encoded children and performs the ordered insertions. -/
lemma kvLoop_kvEncode (name : String) (ps : List (String × KValue))
    (rest : List KValue) (acc : List (String × KValue)) :
    kvLoop name ps.length (kvEncode ps ++ rest) acc =
      .ok (odInsertAll acc ps, rest) := by
  induction ps generalizing acc with
  | nil => rfl
  | cons hd tl ih =>
    obtain ⟨k, v⟩ := hd
    simp only [kvEncode, List.foldr_cons, List.length_cons, List.cons_append]
    show kvLoop name (tl.length + 1) (.str k :: v :: (kvEncode tl ++ rest)) acc =
      .ok (odInsertAll acc ((k, v) :: tl), rest)
    simp only [kvLoop, pop, except_bind_ok]
    exact ih (odInsert acc k v)

/-- Inserting an existing key keeps the length; a new key adds one. -/
lemma odInsert_length (acc : List (String × KValue)) (k : String) (v : KValue) :
    (odInsert acc k v).length =
      if k ∈ acc.map Prod.fst then acc.length else acc.length + 1 := by
  induction acc with
  | nil => simp [odInsert]
  | cons hd tl ih =>
    obtain ⟨a, b⟩ := hd
    by_cases hak : a = k
    · subst hak
      simp [odInsert]
    · have hka : ¬ k = a := fun hc => hak hc.symm
      simp only [odInsert, hak, List.map_cons, List.length_cons, ih,
        if_neg (fun hc => hak hc)]
      by_cases hm : k ∈ List.map Prod.fst tl
      · simp [ih, hm, hka]
      · simp [ih, hm, hka]

/-- Keys after an ordered insert: the inserted key plus the old keys. -/
lemma odInsert_keys_mem (acc : List (String × KValue)) (k' : String)
    (v' : KValue) (k : String) :
    k ∈ (odInsert acc k' v').map Prod.fst ↔
      k = k' ∨ k ∈ acc.map Prod.fst := by
  induction acc with
  | nil => simp [odInsert]
  | cons hd tl ih =>
    obtain ⟨a, b⟩ := hd
    by_cases hak : a = k'
    · subst hak
      simp [odInsert]
      try tauto
    · simp [odInsert, hak, ih]
      try tauto

/-- Inserting a pair list grows the mapping by at most the list length. -/
lemma odInsertAll_length_le (ps : List (String × KValue))
    (acc : List (String × KValue)) :
    (odInsertAll acc ps).length ≤ acc.length + ps.length := by
  induction ps generalizing acc with
  | nil => simp [odInsertAll]
  | cons hd tl ih =>
    obtain ⟨k, v⟩ := hd
    show (odInsertAll (odInsert acc k v) tl).length ≤ acc.length + (tl.length + 1)
    calc (odInsertAll (odInsert acc k v) tl).length
        ≤ (odInsert acc k v).length + tl.length := ih _
      _ ≤ acc.length + (tl.length + 1) := by
          rw [odInsert_length]
          split_ifs <;> omega

/-- If some key of the pair list is already present in the accumulator,
at least one insertion is absorbed. -/
lemma odInsertAll_length_lt_of_mem (ps : List (String × KValue)) :
    ∀ (acc : List (String × KValue)) (k : String),
      k ∈ acc.map Prod.fst → k ∈ ps.map Prod.fst →
      (odInsertAll acc ps).length < acc.length + ps.length := by
  induction ps with
  | nil => intro acc k _ h; simp at h
  | cons hd tl ih =>
    obtain ⟨k', v'⟩ := hd
    intro acc k hacc hps
    show (odInsertAll (odInsert acc k' v') tl).length < acc.length + (tl.length + 1)
    by_cases hkk : k = k'
    · subst hkk
      have hlen : (odInsert acc k v').length = acc.length := by
        rw [odInsert_length, if_pos hacc]
      calc (odInsertAll (odInsert acc k v') tl).length
          ≤ (odInsert acc k v').length + tl.length := odInsertAll_length_le _ _
        _ = acc.length + tl.length := by rw [hlen]
        _ < acc.length + (tl.length + 1) := by omega
    · have hps' : k ∈ tl.map Prod.fst := by
        simp at hps
        rcases hps with h | h
        · exact absurd h hkk
        · simpa using h
      have hacc' : k ∈ (odInsert acc k' v').map Prod.fst :=
        (odInsert_keys_mem acc k' v' k).mpr (Or.inr hacc)
      calc (odInsertAll (odInsert acc k' v') tl).length
          < (odInsert acc k' v').length + tl.length := ih _ k hacc' hps'
        _ ≤ acc.length + 1 + tl.length := by
            rw [odInsert_length]; split_ifs <;> omega
        _ ≤ acc.length + (tl.length + 1) := by omega

/-- A duplicated key among the pairs makes the mapping strictly shorter
than the pair count. -/
lemma odInsertAll_length_lt (ps : List (String × KValue)) :
    ∀ acc : List (String × KValue), ¬ (ps.map Prod.fst).Nodup →
      (odInsertAll acc ps).length < acc.length + ps.length := by
  induction ps with
  | nil => intro acc h; exact absurd List.nodup_nil h
  | cons hd tl ih =>
    obtain ⟨k, v⟩ := hd
    intro acc h
    show (odInsertAll (odInsert acc k v) tl).length < acc.length + (tl.length + 1)
    rw [List.map_cons, List.nodup_cons] at h
    push_neg at h
    by_cases hmem : k ∈ tl.map Prod.fst
    · have hacc : k ∈ (odInsert acc k v).map Prod.fst :=
        (odInsert_keys_mem acc k v k).mpr (Or.inl rfl)
      calc (odInsertAll (odInsert acc k v) tl).length
          < (odInsert acc k v).length + tl.length :=
            odInsertAll_length_lt_of_mem tl _ k hacc hmem
        _ ≤ acc.length + 1 + tl.length := by
            rw [odInsert_length]; split_ifs <;> omega
        _ ≤ acc.length + (tl.length + 1) := by omega
    · have hnd : ¬ (tl.map Prod.fst).Nodup := h hmem
      calc (odInsertAll (odInsert acc k v) tl).length
          < (odInsert acc k v).length + tl.length := ih _ hnd
        _ ≤ acc.length + 1 + tl.length := by
            rw [odInsert_length]; split_ifs <;> omega
        _ ≤ acc.length + (tl.length + 1) := by omega

/-- C9: in the generic key/value-map rule, a repeated key among the `N`
decoded pairs is not an error: the later pair overwrites the earlier
(mapping holds the last value for each key) and the mapping ends up with
fewer than `N` entries — unlike the top-level merge, where a repeated
name is the fatal duplicate-key error. -/
theorem C9_kv_overwrite (name : String) (h : kvNames.contains name = true)
    (ps : List (String × KValue)) :
    decodeObject name (.int ps.length :: kvEncode ps) =
      .ok (.dict [(name, .dict (odInsertAll [] ps))], []) ∧
    (∀ k, odLookup (odInsertAll [] ps) k = lastVal ps k) ∧
    (¬ (ps.map Prod.fst).Nodup → (odInsertAll [] ps).length < ps.length) ∧
    (∀ (k : String) (v w : KValue),
      mergeEntries [] [(k, v), (k, w)] = .error (.duplicateKey k)) := by
  refine ⟨?_, fun k => odLookup_odInsertAll_nil ps k, fun hnd => ?_, fun k v w => ?_⟩
  · have hkv : kvLoop name ps.length (kvEncode ps ++ []) [] =
        .ok (odInsertAll [] ps, []) := kvLoop_kvEncode name ps [] []
    rw [List.append_nil] at hkv
    simp only [kvNames] at h
    simp at h
    rcases h with rfl|rfl|rfl|rfl|rfl|rfl <;>
      simp [decodeObject, runRule, ruleKv, pop, rangeCount, noDiag, hkv,
        singleNames, kvNames, jsonNames, annotClassValues]
  · have := odInsertAll_length_lt ps [] hnd
    simpa using this
  · simp [mergeEntries]

/-- C9 witness: two pairs with the same key in `dict.prefs.v2` give a
one-entry mapping holding the second value, while the same repetition at
the top level is fatal. -/
theorem C9_kv_overwrite_witness :
    decodeObject "dict.prefs.v2"
        [.int 2, .str "a", .int 1, .str "a", .int 2] =
      .ok (.dict [("dict.prefs.v2", .dict [("a", .int 2)])], []) ∧
    odLookup (odInsertAll [] [("a", .int 1), ("a", .int 2)]) "a" =
      some (.int 2) ∧
    (odInsertAll [] [("a", .int 1), ("a", .int 2)]).length < 2 ∧
    mergeEntries [] [("a", .int 1), ("a", .int 2)] =
      .error (.duplicateKey "a") := by
  have h := C9_kv_overwrite "dict.prefs.v2" rfl [("a", .int 1), ("a", .int 2)]
  refine ⟨?_, ?_, ?_, h.2.2.2 "a" (.int 1) (.int 2)⟩
  · have h1 := h.1
    simpa [kvEncode, odInsertAll, odInsert] using h1
  · have h2 := h.2.1 "a"
    simpa [lastVal, odInsertAll, odInsert] using h2
  · exact h.2.2.1 (by simp)

/-! ## C3: top-level duplicate names -/

/-- The merge loop succeeds, appending in encounter order, when the new
items' keys are distinct and disjoint from the accumulated keys. -/
lemma mergeEntries_ok (items : List (String × KValue)) :
    ∀ acc : List (String × KValue), (items.map Prod.fst).Nodup →
      (∀ k ∈ items.map Prod.fst, k ∉ acc.map Prod.fst) →
      mergeEntries acc items = .ok (acc ++ items) := by
  induction items with
  | nil => intro acc _ _; simp [mergeEntries]
  | cons hd tl ih =>
    obtain ⟨k, v⟩ := hd
    intro acc hnd hdisj
    rw [List.map_cons, List.nodup_cons] at hnd
    have hk : k ∉ acc.map Prod.fst := hdisj k (by simp)
    have hc : ¬ (acc.map Prod.fst).contains k = true := by
      simpa using hk
    simp only [mergeEntries, if_neg hc]
    rw [ih (acc ++ [(k, v)]) hnd.2 ?_]
    · simp
    · intro x hx hmem
      rw [List.map_append, List.mem_append] at hmem
      rcases hmem with hxa | hxk
      · exact hdisj x (by simp [hx]) hxa
      · simp at hxk
        subst hxk
        exact hnd.1 hx

/-- The merge loop fails with a duplicate-key error as soon as the items
repeat a key or hit one already accumulated. -/
lemma mergeEntries_error (items : List (String × KValue)) :
    ∀ acc : List (String × KValue),
      ¬ ((items.map Prod.fst).Nodup ∧
        ∀ k ∈ items.map Prod.fst, k ∉ acc.map Prod.fst) →
      ∃ k, mergeEntries acc items = .error (.duplicateKey k) := by
  induction items with
  | nil =>
    intro acc h
    exact absurd ⟨List.nodup_nil, by simp⟩ h
  | cons hd tl ih =>
    obtain ⟨k, v⟩ := hd
    intro acc h
    by_cases hk : k ∈ acc.map Prod.fst
    · refine ⟨k, ?_⟩
      have hc : (acc.map Prod.fst).contains k = true := by simpa using hk
      simp only [mergeEntries]
      rw [if_pos hc]
    · have hc : ¬ (acc.map Prod.fst).contains k = true := by simpa using hk
      simp only [mergeEntries, if_neg hc]
      apply ih
      rintro ⟨h1, h2⟩
      apply h
      constructor
      · rw [List.map_cons, List.nodup_cons]
        refine ⟨fun hmem => ?_, h1⟩
        have := h2 k hmem
        simp at this
      · intro x hx
        rcases List.mem_cons.mp hx with rfl | hx'
        · exact hk
        · intro hxa
          exact h2 x hx' (by simp [hxa])

/-- Merging a concatenation is merging the first part, then the second. -/
lemma mergeEntries_append (xs ys : List (String × KValue)) :
    ∀ acc : List (String × KValue),
      mergeEntries acc (xs ++ ys) =
        mergeEntries acc xs >>= fun a => mergeEntries a ys := by
  induction xs with
  | nil => intro acc; simp [mergeEntries]
  | cons hd tl ih =>
    obtain ⟨k, v⟩ := hd
    intro acc
    by_cases hc : (acc.map Prod.fst).contains k = true
    · simp only [List.cons_append, mergeEntries, if_pos hc]
      rfl
    · simp only [List.cons_append, mergeEntries, if_neg hc]
      exact ih (acc ++ [(k, v)])

/-- The top-level fold over per-value item lists is one merge of the
flattened items. -/
lemma mergeTop_eq_flatten (vals : List (List (String × KValue))) :
    ∀ acc : List (String × KValue),
      List.foldlM mergeEntries acc vals = mergeEntries acc vals.flatten := by
  induction vals with
  | nil => intro acc; rfl
  | cons items vals ih =>
    intro acc
    rw [List.flatten_cons, mergeEntries_append items vals.flatten acc]
    show mergeEntries acc items >>= (fun a => List.foldlM mergeEntries a vals) = _
    cases mergeEntries acc items with
    | error e => rfl
    | ok a => simp [ih a]

/-- C3: two top-level entries with the same structure name make the merge
fail with the duplicate-key error, whatever their contents; when all
top-level names are distinct, the merge succeeds and the mapping lists
each name exactly once, in encounter order. -/
theorem C3_duplicate_top_names (vals : List (List (String × KValue))) :
    (¬ (vals.flatten.map Prod.fst).Nodup →
      ∃ k, mergeTop vals = .error (.duplicateKey k)) ∧
    ((vals.flatten.map Prod.fst).Nodup →
      mergeTop vals = .ok vals.flatten) := by
  have heq : mergeTop vals = mergeEntries [] vals.flatten :=
    mergeTop_eq_flatten vals []
  constructor
  · intro hnd
    rw [heq]
    apply mergeEntries_error
    rintro ⟨h1, -⟩
    exact hnd h1
  · intro hnd
    rw [heq]
    have := mergeEntries_ok vals.flatten [] hnd (by simp)
    simpa using this

/-- C3 witness: two `font.prefs` entries with different contents fail
with the duplicate-key error; two distinct names merge in order. -/
theorem C3_duplicate_top_names_witness :
    (∃ k, mergeTop [[("font.prefs", KValue.int 1)],
        [("font.prefs", KValue.int 2)]] = .error (.duplicateKey k)) ∧
    mergeTop [[("font.prefs", KValue.int 1)], [("lpr", KValue.int 2)]] =
      .ok [("font.prefs", KValue.int 1), ("lpr", KValue.int 2)] :=
  ⟨(C3_duplicate_top_names _).1 (by simp),
   by
    have h := (C3_duplicate_top_names
      [[("font.prefs", KValue.int 1)], [("lpr", KValue.int 2)]]).2 (by simp)
    simpa using h⟩

/-! ## C4: the format-version check -/

/-- C4: immediately after a valid 8-byte signature, the decoder reads one
Int32-tagged value (tag byte `1`, then four big-endian bytes decoding to
`v`); the decode proceeds to the count stage exactly when `v = 1`, and
any other value is the fatal unsupported-version failure carrying `v`. -/
theorem C4_version_check (f : Nat) (b0 b1 b2 b3 : Nat) (rest : List Nat) :
    deserializeAux (f + 1) (SIGNATURE ++ 1 :: b0 :: b1 :: b2 :: b3 :: rest) =
      if toSigned 4 (beNat [b0, b1, b2, b3]) = 1
      then deserializeFromCount (f + 1)
        ⟨SIGNATURE ++ 1 :: b0 :: b1 :: b2 :: b3 :: rest, 13⟩ []
      else .error (.unsupportedVersion
        (.int (toSigned 4 (beNat [b0, b1, b2, b3])))) := by
  have htag : toSigned 1 (beNat [1]) = 1 := rfl
  by_cases hv : toSigned 4 (beNat [b0, b1, b2, b3]) = 1
  · rw [if_pos hv]
    simp [deserializeAux, SIGNATURE, Deserializer.extract, decodeNext,
      readTag, Deserializer.unpackSigned, Deserializer.readBytes, pyEqOne,
      hv, htag]
  · rw [if_neg hv]
    simp [deserializeAux, SIGNATURE, Deserializer.extract, decodeNext,
      readTag, Deserializer.unpackSigned, Deserializer.readBytes, pyEqOne,
      hv, htag]

/-! ## Cursor lemmas -/

/-- Successful `readBytes` characterized: the bytes are the `w`-byte slice
at the offset and at least `w` bytes remain. -/
lemma readBytes_eq_some {d : Deserializer} {w : Nat} {bs : List Nat} :
    d.readBytes w = some bs ↔
      bs = (d.buffer.drop d.offset).take w ∧ w ≤ d.buffer.length - d.offset := by
  unfold Deserializer.readBytes
  have hlen : ((d.buffer.drop d.offset).take w).length =
      min w (d.buffer.length - d.offset) := by
    simp [List.length_take, List.length_drop]
  constructor
  · intro h
    split at h
    · next hc =>
      cases h
      refine ⟨rfl, ?_⟩
      omega
    · cases h
  · rintro ⟨rfl, hw⟩
    split
    · rfl
    · next hc => omega

/-- What a successful advancing `extract` guarantees. -/
lemma extract_ok {d : Deserializer} {size : Int} {adv : Bool}
    {out : List Nat} {d' : Deserializer}
    (h : d.extract size adv = .ok (out, d')) :
    d'.buffer = d.buffer ∧ 0 ≤ size ∧
      size.toNat ≤ d.buffer.length - d.offset ∧
      out = (d.buffer.drop d.offset).take size.toNat ∧
      d'.offset = if adv then d.offset + size.toNat else d.offset := by
  unfold Deserializer.extract at h
  have hlen : ((d.buffer.drop d.offset).take size.toNat).length =
      min size.toNat (d.buffer.length - d.offset) := by
    simp [List.length_take, List.length_drop]
  split at h
  · cases h
  · next hneg =>
    split at h
    · cases h
    · next hcap =>
      cases h
      refine ⟨?_, by omega, by omega, rfl, ?_⟩ <;> cases adv <;> simp

/-- `extract` succeeds whenever the size is non-negative and within the
remaining length. -/
lemma extract_succeeds {d : Deserializer} {size : Int} (adv : Bool)
    (h0 : 0 ≤ size) (h1 : size.toNat ≤ d.buffer.length - d.offset) :
    d.extract size adv =
      .ok ((d.buffer.drop d.offset).take size.toNat,
        if adv then { d with offset := d.offset + size.toNat } else d) := by
  unfold Deserializer.extract
  have hlen : ((d.buffer.drop d.offset).take size.toNat).length =
      min size.toNat (d.buffer.length - d.offset) := by
    simp [List.length_take, List.length_drop]
  rw [if_neg (by omega)]
  split
  · next hc => omega
  · rfl

/-- `extract` fails exactly on a negative size or too few remaining
bytes, and then reports truncated input. -/
lemma extract_fails {d : Deserializer} {size : Int} (adv : Bool)
    (h : ¬ (0 ≤ size ∧ size.toNat ≤ d.buffer.length - d.offset)) :
    d.extract size adv = .error .truncatedInput := by
  unfold Deserializer.extract
  have hlen : ((d.buffer.drop d.offset).take size.toNat).length =
      min size.toNat (d.buffer.length - d.offset) := by
    simp [List.length_take, List.length_drop]
  split
  · rfl
  · next hneg =>
    split
    · rfl
    · next hc => omega

/-- What a successful `unpackSigned` guarantees for the cursor. -/
lemma unpackSigned_ok {d : Deserializer} {w : Nat} {adv : Bool}
    {v : Int} {d' : Deserializer}
    (h : d.unpackSigned w adv = .ok (v, d')) :
    d'.buffer = d.buffer ∧ w ≤ d.buffer.length - d.offset ∧
      d'.offset = if adv then d.offset + w else d.offset := by
  unfold Deserializer.unpackSigned at h
  split at h
  · cases h
  · next bs hbs =>
    obtain ⟨-, hw⟩ := readBytes_eq_some.mp hbs
    cases h
    refine ⟨?_, hw, ?_⟩ <;> cases adv <;> simp

/-- What a successful `unpackUnsigned` guarantees for the cursor. -/
lemma unpackUnsigned_ok {d : Deserializer} {w : Nat}
    {v : Nat} {d' : Deserializer}
    (h : d.unpackUnsigned w = .ok (v, d')) :
    d'.buffer = d.buffer ∧ w ≤ d.buffer.length - d.offset ∧
      d'.offset = d.offset + w := by
  unfold Deserializer.unpackUnsigned at h
  split at h
  · cases h
  · next bs hbs =>
    obtain ⟨-, hw⟩ := readBytes_eq_some.mp hbs
    cases h
    exact ⟨rfl, hw, rfl⟩

/-- What a successful `unpackFloatBits` guarantees for the cursor. -/
lemma unpackFloatBits_ok {d : Deserializer} {w : Nat}
    {v : Nat} {d' : Deserializer}
    (h : d.unpackFloatBits w = .ok (v, d')) :
    d'.buffer = d.buffer ∧ w ≤ d.buffer.length - d.offset ∧
      d'.offset = d.offset + w := by
  unfold Deserializer.unpackFloatBits at h
  split at h
  · cases h
  · next bs hbs =>
    obtain ⟨-, hw⟩ := readBytes_eq_some.mp hbs
    cases h
    exact ⟨rfl, hw, rfl⟩

/-- Every successful cursor operation keeps the buffer, never moves the
offset backwards, and never moves it past the buffer length. -/
lemma stepOp_ok {d d' : Deserializer} {op : CursorOp}
    (h : stepOp d op = .ok d') :
    d'.buffer = d.buffer ∧ d.offset ≤ d'.offset ∧
      (d.offset ≤ d.buffer.length → d'.offset ≤ d.buffer.length) := by
  cases op with
  | opExtract size adv =>
    simp only [stepOp] at h
    cases hex : d.extract size adv with
    | error e => rw [hex] at h; cases h
    | ok p =>
      rw [hex] at h
      cases h
      obtain ⟨hb, -, hcap, -, hoff⟩ := extract_ok hex
      refine ⟨hb, ?_, ?_⟩ <;> (cases adv <;> simp_all <;> omega)
  | opSigned w adv =>
    simp only [stepOp] at h
    cases hex : d.unpackSigned w adv with
    | error e => rw [hex] at h; cases h
    | ok p =>
      rw [hex] at h
      cases h
      obtain ⟨hb, hcap, hoff⟩ := unpackSigned_ok hex
      refine ⟨hb, ?_, ?_⟩ <;> (cases adv <;> simp_all <;> omega)
  | opUnsigned w =>
    simp only [stepOp] at h
    cases hex : d.unpackUnsigned w with
    | error e => rw [hex] at h; cases h
    | ok p =>
      rw [hex] at h
      cases h
      obtain ⟨hb, hcap, hoff⟩ := unpackUnsigned_ok hex
      exact ⟨hb, by omega, by omega⟩
  | opFloatBits w =>
    simp only [stepOp] at h
    cases hex : d.unpackFloatBits w with
    | error e => rw [hex] at h; cases h
    | ok p =>
      rw [hex] at h
      cases h
      obtain ⟨hb, hcap, hoff⟩ := unpackFloatBits_ok hex
      exact ⟨hb, by omega, by omega⟩

/-- The cursor invariant extended over a whole operation sequence. -/
lemma runOps_invariant (ops : List CursorOp) (d : Deserializer)
    (h : d.offset ≤ d.buffer.length) :
    (runOps d ops).buffer = d.buffer ∧
      d.offset ≤ (runOps d ops).offset ∧
      (runOps d ops).offset ≤ d.buffer.length := by
  induction ops generalizing d with
  | nil => exact ⟨rfl, le_refl _, h⟩
  | cons op ops ih =>
    simp only [runOps]
    cases hst : stepOp d op with
    | error e => exact ⟨rfl, le_refl _, h⟩
    | ok d' =>
      obtain ⟨hb, hmono, hcap⟩ := stepOp_ok hst
      obtain ⟨ihb, ihmono, ihcap⟩ := ih d' (by rw [hb]; exact hcap h)
      rw [hb] at ihb ihcap
      exact ⟨ihb, le_trans hmono ihmono, ihcap⟩

/-- C8: over any sequence of `Deserializer` cursor operations on an
immutable buffer, the read offset is monotonically non-decreasing and
never exceeds the buffer length; extracting `size` bytes succeeds and
advances by exactly `size` only when `size` is non-negative and at most
the remaining length, and otherwise fails (truncated input) with the
offset unchanged. -/
theorem C8_cursor_invariant (d : Deserializer) (ops : List CursorOp)
    (h : d.offset ≤ d.buffer.length) :
    ((runOps d ops).buffer = d.buffer ∧
      d.offset ≤ (runOps d ops).offset ∧
      (runOps d ops).offset ≤ d.buffer.length) ∧
    (∀ size : Int,
      (0 ≤ size ∧ size.toNat ≤ d.remaining →
        ∃ out d', d.extract size true = .ok (out, d') ∧
          d'.buffer = d.buffer ∧ d'.offset = d.offset + size.toNat ∧
          out.length = size.toNat) ∧
      (¬ (0 ≤ size ∧ size.toNat ≤ d.remaining) →
        d.extract size true = .error .truncatedInput ∧
        runOps d [.opExtract size true] = d)) := by
  refine ⟨runOps_invariant ops d h, fun size => ⟨?_, ?_⟩⟩
  · rintro ⟨h0, h1⟩
    refine ⟨_, _, extract_succeeds true h0 h1, rfl, rfl, ?_⟩
    have : d.remaining = d.buffer.length - d.offset := rfl
    simp only [List.length_take, List.length_drop]
    omega
  · intro hno
    have hfail : d.extract size true = .error .truncatedInput :=
      extract_fails true hno
    refine ⟨hfail, ?_⟩
    simp only [runOps, stepOp, hfail, Except.map]

/-- C8 witness: a concrete cursor over three bytes; a two-byte extraction
after a one-byte read stays within bounds, and a negative-size extraction
fails with the cursor unmoved. -/
theorem C8_cursor_invariant_witness :
    ((runOps ⟨[7, 8, 9], 0⟩ [.opSigned 1 true, .opExtract 2 true]).offset ≤
      (Deserializer.buffer ⟨[7, 8, 9], 0⟩).length) ∧
    (Deserializer.extract ⟨[7, 8, 9], 0⟩ (-2) true = .error .truncatedInput ∧
      runOps ⟨[7, 8, 9], 0⟩ [.opExtract (-2) true] = ⟨[7, 8, 9], 0⟩) :=
  ⟨(C8_cursor_invariant ⟨[7, 8, 9], 0⟩ [.opSigned 1 true, .opExtract 2 true]
      (by decide)).1.2.2,
   ((C8_cursor_invariant ⟨[7, 8, 9], 0⟩ [] (by decide)).2 (-2)).2 (by decide)⟩

/-! ## C1 / C2: exact consumption and the unknown-name fallback -/

/-- C1: for every recognized structure name, `decode_object` consumes the
children exactly: it succeeds iff the name's rule consumes the children
with zero leftover; a nonempty leftover after the rule is the fatal
`excessValues name`; a rule that demands an absent child is the fatal
`missingValue name` (in particular every recognized rule demands at least
one child, so empty children always fail that way). -/
theorem C1_exact_consumption (name : String) (val : List KValue)
    (h : isKnownName name = true) :
    ((∃ r, decodeObject name val = .ok r) ↔
      (∃ obj ds, runRule name val = .ok (obj, [], ds))) ∧
    (∀ obj rest ds, runRule name val = .ok (obj, rest, ds) → rest ≠ [] →
      decodeObject name val = .error (.excessValues name)) ∧
    (runRule name val = .error (.missingValue name) →
      decodeObject name val = .error (.missingValue name)) ∧
    decodeObject name [] = .error (.missingValue name) := by
  refine ⟨⟨?_, ?_⟩, ?_, ?_, ?_⟩
  · rintro ⟨r, hr⟩
    unfold decodeObject at hr
    cases hrr : runRule name val with
    | error e =>
      rw [hrr] at hr
      dsimp only at hr
      exact Except.noConfusion hr
    | ok p =>
      obtain ⟨obj, rest, ds⟩ := p
      rw [hrr] at hr
      dsimp only at hr
      by_cases hrest : rest.isEmpty
      · rw [List.isEmpty_iff] at hrest
        subst hrest
        exact ⟨obj, ds, rfl⟩
      · rw [if_neg hrest] at hr
        exact Except.noConfusion hr
  · rintro ⟨obj, ds, hr⟩
    refine ⟨(.dict [(name, obj)], ds), ?_⟩
    unfold decodeObject
    rw [hr]
    rfl
  · intro obj rest ds hr hne
    unfold decodeObject
    rw [hr]
    dsimp only
    rw [if_neg (fun hc => hne (List.isEmpty_iff.mp hc))]
  · intro hr
    unfold decodeObject
    rw [hr]
  · simp only [isKnownName, Bool.or_eq_true, decide_eq_true_eq, or_assoc] at h
    rcases h with h|h|h|h|h|h|h|h|h|h|h|h|h|h|h|h|h|h|h|h|h|h|h|h|h|h|h
    · simp [singleNames] at h
      rcases h with rfl|rfl|rfl|rfl|rfl|rfl|rfl|rfl|rfl|rfl <;> rfl
    · simp [kvNames] at h
      rcases h with rfl|rfl|rfl|rfl|rfl|rfl <;> rfl
    · simp [jsonNames] at h
      rcases h with rfl|rfl|rfl <;> rfl
    all_goals try (subst h; rfl)
    · simp [annotClassValues] at h
      rcases h with rfl|rfl|rfl|rfl|rfl|rfl <;> rfl

/-- C1 witness at `clock.data.store`: one leftover child is
`excessValues`, empty children are `missingValue`, and exactly one child
decodes successfully. -/
theorem C1_exact_consumption_witness :
    decodeObject "clock.data.store" [.int 5, .int 6] =
      .error (.excessValues "clock.data.store") ∧
    decodeObject "clock.data.store" [] =
      .error (.missingValue "clock.data.store") ∧
    (∃ r, decodeObject "clock.data.store" [.int 5] = .ok r) :=
  ⟨(C1_exact_consumption "clock.data.store" [.int 5, .int 6] rfl).2.1
      (.int 5) [.int 6] [] rfl (by simp),
   (C1_exact_consumption "clock.data.store" [] rfl).2.2.2,
   (C1_exact_consumption "clock.data.store" [.int 5] rfl).1.mpr
      ⟨.int 5, [], rfl⟩⟩

/-- C2: decoding a `NamedObject` whose name has no rule never fails: the
`unknownStructure` diagnostic is logged, the decoded value is exactly the
raw ordered list of the already-decoded children, and the zero-leftover
check is skipped for that call. -/
theorem C2_unknown_fallback (name : String) (val : List KValue)
    (h : isKnownName name = false) :
    decodeObject name val = .ok (.dict [(name, .list val)],
      [.unknownStructure name]) := by
  simp only [isKnownName, Bool.or_eq_false_iff, decide_eq_false_iff_not, and_assoc] at h
  obtain ⟨h1, h2, h3, h4, h5, h6, h7, h8, h9, h10, h11, h12, h13, h14, h15,
    h16, h17, h18, h19, h20, h21, h22, h23, h24, h25, h26, h27⟩ := h
  have n1 : ¬(singleNames.contains name = true) := by
    simp only [h1]; exact Bool.false_ne_true
  have n2 : ¬(kvNames.contains name = true) := by
    simp only [h2]; exact Bool.false_ne_true
  have n3 : ¬(jsonNames.contains name = true) := by
    simp only [h3]; exact Bool.false_ne_true
  have n6 : ¬((decide (name = "fpr") || decide (name = "updated_lpr")) = true) := by
    simp [h6, h7]
  have n10 : ¬(annotClassValues.contains name = true) := by
    simp only [h10]; exact Bool.false_ne_true
  unfold decodeObject runRule
  rw [if_neg n1, if_neg n2, if_neg n3, if_neg h4, if_neg h5, if_neg n6,
    if_neg h8, if_neg h9, if_neg n10, if_neg h11, if_neg h12, if_neg h13,
    if_neg h14, if_neg h15, if_neg h16, if_neg h17, if_neg h18, if_neg h19,
    if_neg h20, if_neg h21, if_neg h22, if_neg h23, if_neg h24, if_neg h25,
    if_neg h26, if_neg h27]
  rfl

/-- C2 witness: a concrete unrecognized name decodes to its raw children
list with the diagnostic logged. -/
theorem C2_unknown_fallback_witness :
    decodeObject "no.such.structure" [.int 1, .str "a"] =
      .ok (.dict [("no.such.structure", .list [.int 1, .str "a"])],
        [.unknownStructure "no.such.structure"]) :=
  C2_unknown_fallback "no.such.structure" [.int 1, .str "a"] rfl

/-! ## C5: trailing bytes — extension lemmas

Reads that succeed on a buffer read the same bytes on the buffer with
extra bytes appended: the groundwork for showing trailing bytes never
alter a successful decode. -/

/-- A successful `readBytes` is unchanged by appending to the buffer. -/
lemma readBytes_extend {d : Deserializer} {w : Nat} {bs : List Nat}
    (extra : List Nat) (h : d.readBytes w = some bs) :
    (Deserializer.mk (d.buffer ++ extra) d.offset).readBytes w = some bs := by
  obtain ⟨rfl, hw⟩ := readBytes_eq_some.mp h
  apply readBytes_eq_some.mpr
  have hlen : (d.buffer.drop d.offset).length = d.buffer.length - d.offset :=
    List.length_drop _ _
  constructor
  · dsimp only
    rw [List.drop_append_eq_append_drop, List.take_append_of_le_length (by omega)]
  · dsimp only
    simp only [List.length_append]
    omega

/-- A successful `unpackSigned` is unchanged by appending to the buffer;
the result cursor keeps the original buffer and only moves the offset. -/
lemma unpackSigned_extend {d d' : Deserializer} {w : Nat} {adv : Bool}
    {v : Int} (extra : List Nat)
    (h : d.unpackSigned w adv = .ok (v, d')) :
    d'.buffer = d.buffer ∧
    (Deserializer.mk (d.buffer ++ extra) d.offset).unpackSigned w adv =
      .ok (v, ⟨d.buffer ++ extra, d'.offset⟩) := by
  unfold Deserializer.unpackSigned at h ⊢
  cases hrb : d.readBytes w with
  | none => rw [hrb] at h; cases h
  | some bs =>
    rw [hrb] at h
    cases h
    rw [readBytes_extend extra hrb]
    cases adv <;> simp

/-- A successful `unpackUnsigned` is unchanged by appending. -/
lemma unpackUnsigned_extend {d d' : Deserializer} {w : Nat}
    {v : Nat} (extra : List Nat)
    (h : d.unpackUnsigned w = .ok (v, d')) :
    d'.buffer = d.buffer ∧
    (Deserializer.mk (d.buffer ++ extra) d.offset).unpackUnsigned w =
      .ok (v, ⟨d.buffer ++ extra, d'.offset⟩) := by
  unfold Deserializer.unpackUnsigned at h ⊢
  cases hrb : d.readBytes w with
  | none => rw [hrb] at h; cases h
  | some bs =>
    rw [hrb] at h
    cases h
    rw [readBytes_extend extra hrb]
    simp

/-- A successful `unpackFloatBits` is unchanged by appending. -/
lemma unpackFloatBits_extend {d d' : Deserializer} {w : Nat}
    {v : Nat} (extra : List Nat)
    (h : d.unpackFloatBits w = .ok (v, d')) :
    d'.buffer = d.buffer ∧
    (Deserializer.mk (d.buffer ++ extra) d.offset).unpackFloatBits w =
      .ok (v, ⟨d.buffer ++ extra, d'.offset⟩) := by
  unfold Deserializer.unpackFloatBits at h ⊢
  cases hrb : d.readBytes w with
  | none => rw [hrb] at h; cases h
  | some bs =>
    rw [hrb] at h
    cases h
    rw [readBytes_extend extra hrb]
    simp

/-- A successful `extract` is unchanged by appending. -/
lemma extract_extend {d d' : Deserializer} {size : Int} {adv : Bool}
    {out : List Nat} (extra : List Nat)
    (h : d.extract size adv = .ok (out, d')) :
    d'.buffer = d.buffer ∧
    (Deserializer.mk (d.buffer ++ extra) d.offset).extract size adv =
      .ok (out, ⟨d.buffer ++ extra, d'.offset⟩) := by
  obtain ⟨hbuf, h0, hcap, hout, hoff⟩ := extract_ok h
  have hlen : (d.buffer.drop d.offset).length = d.buffer.length - d.offset :=
    List.length_drop _ _
  have hslice : List.take size.toNat (List.drop d.offset (d.buffer ++ extra)) =
      List.take size.toNat (List.drop d.offset d.buffer) := by
    rw [List.drop_append_eq_append_drop, List.take_append_of_le_length (by omega)]
  refine ⟨hbuf, ?_⟩
  unfold Deserializer.extract
  rw [if_neg (by omega)]
  simp only [hslice]
  rw [if_neg (by simp only [List.length_take, List.length_drop]; omega)]
  subst hout
  cases adv <;> simp_all



/-- `CursorStep` is reflexive. -/
lemma CursorStep.refl {d : Deserializer} : CursorStep d d := ⟨rfl, fun h => h⟩

/-- `CursorStep` composes. -/
lemma CursorStep.trans {d0 d1 d2 : Deserializer}
    (h1 : CursorStep d0 d1) (h2 : CursorStep d1 d2) : CursorStep d0 d2 := by
  obtain ⟨b1, l1⟩ := h1
  obtain ⟨b2, l2⟩ := h2
  refine ⟨b2.trans b1, fun h => ?_⟩
  have := l2 (by rw [b1]; exact l1 h)
  rwa [b1] at this

/-- Bundled facts about a successful tag acquisition: a cursor step, and
the same read on an extended buffer. -/
lemma readTag_ext3 (extra : List Nat) {d d' : Deserializer}
    {dty : Option Int} {t : Int} (h : readTag d dty = .ok (t, d')) :
    CursorStep d d' ∧
    readTag ⟨d.buffer ++ extra, d.offset⟩ dty =
      .ok (t, ⟨d.buffer ++ extra, d'.offset⟩) := by
  cases dty with
  | some t' =>
    cases h
    exact ⟨CursorStep.refl, rfl⟩
  | none =>
    obtain ⟨hb, hcap, hoff⟩ := unpackSigned_ok h
    obtain ⟨-, hext⟩ := unpackSigned_extend extra h
    exact ⟨⟨hb, fun hle => by simp at hoff; omega⟩, hext⟩

/-- Bundled facts about a successful signed read. -/
lemma unpackSigned_ext3 (extra : List Nat) {d d' : Deserializer}
    {w : Nat} {adv : Bool} {v : Int} (h : d.unpackSigned w adv = .ok (v, d')) :
    CursorStep d d' ∧
    (Deserializer.mk (d.buffer ++ extra) d.offset).unpackSigned w adv =
      .ok (v, ⟨d.buffer ++ extra, d'.offset⟩) := by
  obtain ⟨hb, hcap, hoff⟩ := unpackSigned_ok h
  obtain ⟨-, hext⟩ := unpackSigned_extend extra h
  refine ⟨⟨hb, fun hle => ?_⟩, hext⟩
  cases adv <;> simp at hoff <;> omega

/-- Bundled facts about a successful unsigned read. -/
lemma unpackUnsigned_ext3 (extra : List Nat) {d d' : Deserializer}
    {w : Nat} {v : Nat} (h : d.unpackUnsigned w = .ok (v, d')) :
    CursorStep d d' ∧
    (Deserializer.mk (d.buffer ++ extra) d.offset).unpackUnsigned w =
      .ok (v, ⟨d.buffer ++ extra, d'.offset⟩) := by
  obtain ⟨hb, hcap, hoff⟩ := unpackUnsigned_ok h
  obtain ⟨-, hext⟩ := unpackUnsigned_extend extra h
  exact ⟨⟨hb, fun hle => by omega⟩, hext⟩

/-- Bundled facts about a successful float-bits read. -/
lemma unpackFloatBits_ext3 (extra : List Nat) {d d' : Deserializer}
    {w : Nat} {v : Nat} (h : d.unpackFloatBits w = .ok (v, d')) :
    CursorStep d d' ∧
    (Deserializer.mk (d.buffer ++ extra) d.offset).unpackFloatBits w =
      .ok (v, ⟨d.buffer ++ extra, d'.offset⟩) := by
  obtain ⟨hb, hcap, hoff⟩ := unpackFloatBits_ok h
  obtain ⟨-, hext⟩ := unpackFloatBits_extend extra h
  exact ⟨⟨hb, fun hle => by omega⟩, hext⟩

/-- Bundled facts about a successful extraction. -/
lemma extract_ext3 (extra : List Nat) {d d' : Deserializer}
    {size : Int} {adv : Bool} {out : List Nat}
    (h : d.extract size adv = .ok (out, d')) :
    CursorStep d d' ∧
    (Deserializer.mk (d.buffer ++ extra) d.offset).extract size adv =
      .ok (out, ⟨d.buffer ++ extra, d'.offset⟩) := by
  obtain ⟨hb, h0, hcap, hout, hoff⟩ := extract_ok h
  obtain ⟨-, hext⟩ := extract_extend extra h
  refine ⟨⟨hb, fun hle => ?_⟩, hext⟩
  cases adv <;> simp at hoff <;> omega


/-- The decoder is prefix-stable: a successful decode reads only the bytes
it consumes, so appending extra bytes to the buffer leaves the decoded
value, the final offset and the diagnostics unchanged (and the cursor
walks forward within the original buffer). -/
lemma decode_extend (extra : List Nat) :
    ∀ fuel : Nat,
      (∀ d dty v d' ds, decodeNext fuel d dty = .ok (v, d', ds) →
        CursorStep d d' ∧
        decodeNext fuel ⟨d.buffer ++ extra, d.offset⟩ dty =
          .ok (v, ⟨d.buffer ++ extra, d'.offset⟩, ds)) ∧
      (∀ d vs d' ds, decodeChildren fuel d = .ok (vs, d', ds) →
        CursorStep d d' ∧
        decodeChildren fuel ⟨d.buffer ++ extra, d.offset⟩ =
          .ok (vs, ⟨d.buffer ++ extra, d'.offset⟩, ds)) := by
  intro fuel
  induction fuel with
  | zero =>
    constructor
    · intro d dty v d' ds h
      simp [decodeNext] at h
    · intro d vs d' ds h
      simp [decodeChildren] at h
  | succ f ih =>
    obtain ⟨ihN, ihC⟩ := ih
    constructor
    · intro d0 dty v d' ds h
      simp only [decodeNext] at h ⊢
      cases hT : readTag d0 dty with
      | error e =>
        rw [hT] at h
        exact Except.noConfusion h
      | ok p =>
        obtain ⟨t, d1⟩ := p
        obtain ⟨hTs, hTe⟩ := readTag_ext3 extra hT
        rw [hT] at h
        rw [hTe]
        dsimp only at h ⊢
        by_cases h0 : t = (0 : Int)
        · rw [if_pos h0] at h ⊢
          cases hB : d1.unpackSigned 1 true with
          | error e => rw [hB] at h; exact Except.noConfusion h
          | ok q =>
            obtain ⟨b, d2⟩ := q
            obtain ⟨hBs, hBe⟩ := unpackSigned_ext3 extra hB
            rw [hTs.1] at hBe
            rw [hB] at h
            rw [hBe]
            dsimp only at h ⊢
            split_ifs at h ⊢ with hb0 hb1
            · cases h
              exact ⟨hTs.trans hBs, rfl⟩
            · cases h
              exact ⟨hTs.trans hBs, rfl⟩
        · rw [if_neg h0] at h ⊢
          by_cases h1 : t = (1 : Int)
          · rw [if_pos h1] at h ⊢
            cases hB : d1.unpackSigned 4 true with
            | error e => rw [hB] at h; exact Except.noConfusion h
            | ok q =>
              obtain ⟨n, d2⟩ := q
              obtain ⟨hBs, hBe⟩ := unpackSigned_ext3 extra hB
              rw [hTs.1] at hBe
              rw [hB] at h
              rw [hBe]
              dsimp only [Except.map] at h ⊢
              cases h
              exact ⟨hTs.trans hBs, rfl⟩
          · rw [if_neg h1] at h ⊢
            by_cases h2 : t = (2 : Int)
            · rw [if_pos h2] at h ⊢
              cases hB : d1.unpackSigned 8 true with
              | error e => rw [hB] at h; exact Except.noConfusion h
              | ok q =>
                obtain ⟨n, d2⟩ := q
                obtain ⟨hBs, hBe⟩ := unpackSigned_ext3 extra hB
                rw [hTs.1] at hBe
                rw [hB] at h
                rw [hBe]
                dsimp only [Except.map] at h ⊢
                cases h
                exact ⟨hTs.trans hBs, rfl⟩
            · rw [if_neg h2] at h ⊢
              by_cases h3 : t = (3 : Int)
              · rw [if_pos h3] at h ⊢
                cases hF : decodeNext f d1 (some 0) with
                | error e => rw [hF] at h; exact Except.noConfusion h
                | ok q =>
                  obtain ⟨flag, d2, ds2⟩ := q
                  obtain ⟨hFs, hFe⟩ := ihN d1 (some 0) flag d2 ds2 hF
                  rw [hTs.1] at hFe
                  rw [hF] at h
                  rw [hFe]
                  dsimp only at h ⊢
                  cases flag with
                  | bool b =>
                    cases b with
                    | true =>
                      dsimp only at h ⊢
                      cases h
                      exact ⟨hTs.trans hFs, rfl⟩
                    | false =>
                      dsimp only at h ⊢
                      cases hL : d2.unpackUnsigned 2 with
                      | error e => rw [hL] at h; exact Except.noConfusion h
                      | ok r =>
                        obtain ⟨len, d3⟩ := r
                        obtain ⟨hLs, hLe⟩ := unpackUnsigned_ext3 extra hL
                        have hc2 : CursorStep d0 d2 := hTs.trans hFs
                        rw [hc2.1] at hLe
                        rw [hL] at h
                        rw [hLe]
                        dsimp only at h ⊢
                        cases hE : d3.extract (len : Int) true with
                        | error e => rw [hE] at h; exact Except.noConfusion h
                        | ok rr =>
                          obtain ⟨bs, d4⟩ := rr
                          obtain ⟨hEs, hEe⟩ := extract_ext3 extra hE
                          have hc3 : CursorStep d0 d3 := hc2.trans hLs
                          rw [hc3.1] at hEe
                          rw [hE] at h
                          rw [hEe]
                          dsimp only at h ⊢
                          cases hU : utf8Decode bs with
                          | none => rw [hU] at h; exact Except.noConfusion h
                          | some str =>
                            rw [hU] at h
                            dsimp only at h ⊢
                            cases h
                            exact ⟨hc3.trans hEs, rfl⟩
                  | int n => exact Except.noConfusion h
                  | float w bits => exact Except.noConfusion h
                  | str sflag => exact Except.noConfusion h
                  | null => exact Except.noConfusion h
                  | list xs => exact Except.noConfusion h
                  | dict es => exact Except.noConfusion h
              · rw [if_neg h3] at h ⊢
                by_cases h4 : t = (4 : Int)
                · rw [if_pos h4] at h ⊢
                  cases hB : d1.unpackFloatBits 8 with
                  | error e => rw [hB] at h; exact Except.noConfusion h
                  | ok q =>
                    obtain ⟨n, d2⟩ := q
                    obtain ⟨hBs, hBe⟩ := unpackFloatBits_ext3 extra hB
                    rw [hTs.1] at hBe
                    rw [hB] at h
                    rw [hBe]
                    dsimp only [Except.map] at h ⊢
                    cases h
                    exact ⟨hTs.trans hBs, rfl⟩
                · rw [if_neg h4] at h ⊢
                  by_cases h5 : t = (5 : Int)
                  · rw [if_pos h5] at h ⊢
                    cases hB : d1.unpackSigned 2 true with
                    | error e => rw [hB] at h; exact Except.noConfusion h
                    | ok q =>
                      obtain ⟨n, d2⟩ := q
                      obtain ⟨hBs, hBe⟩ := unpackSigned_ext3 extra hB
                      rw [hTs.1] at hBe
                      rw [hB] at h
                      rw [hBe]
                      dsimp only [Except.map] at h ⊢
                      cases h
                      exact ⟨hTs.trans hBs, rfl⟩
                  · rw [if_neg h5] at h ⊢
                    by_cases h6 : t = (6 : Int)
                    · rw [if_pos h6] at h ⊢
                      cases hB : d1.unpackFloatBits 4 with
                      | error e => rw [hB] at h; exact Except.noConfusion h
                      | ok q =>
                        obtain ⟨n, d2⟩ := q
                        obtain ⟨hBs, hBe⟩ := unpackFloatBits_ext3 extra hB
                        rw [hTs.1] at hBe
                        rw [hB] at h
                        rw [hBe]
                        dsimp only [Except.map] at h ⊢
                        cases h
                        exact ⟨hTs.trans hBs, rfl⟩
                    · rw [if_neg h6] at h ⊢
                      by_cases h7 : t = (7 : Int)
                      · rw [if_pos h7] at h ⊢
                        cases hB : d1.unpackSigned 1 true with
                        | error e => rw [hB] at h; exact Except.noConfusion h
                        | ok q =>
                          obtain ⟨n, d2⟩ := q
                          obtain ⟨hBs, hBe⟩ := unpackSigned_ext3 extra hB
                          rw [hTs.1] at hBe
                          rw [hB] at h
                          rw [hBe]
                          dsimp only [Except.map] at h ⊢
                          cases h
                          exact ⟨hTs.trans hBs, rfl⟩
                      · rw [if_neg h7] at h ⊢
                        by_cases h9 : t = (9 : Int)
                        · rw [if_pos h9] at h ⊢
                          cases hB : d1.unpackUnsigned 1 with
                          | error e => rw [hB] at h; exact Except.noConfusion h
                          | ok q =>
                            obtain ⟨b, d2⟩ := q
                            obtain ⟨hBs, hBe⟩ := unpackUnsigned_ext3 extra hB
                            rw [hTs.1] at hBe
                            rw [hB] at h
                            rw [hBe]
                            dsimp only at h ⊢
                            split_ifs at h ⊢ with hb
                            · cases h
                              exact ⟨hTs.trans hBs, rfl⟩
                        · rw [if_neg h9] at h ⊢
                          by_cases hm2 : t = (-2 : Int)
                          · rw [if_pos hm2] at h ⊢
                            cases hN : decodeNext f d1 (some 3) with
                            | error e => rw [hN] at h; exact Except.noConfusion h
                            | ok q =>
                              obtain ⟨nameV, d2, ds0⟩ := q
                              obtain ⟨hNs, hNe⟩ := ihN d1 (some 3) nameV d2 ds0 hN
                              rw [hTs.1] at hNe
                              rw [hN] at h
                              rw [hNe]
                              dsimp only at h ⊢
                              cases nameV with
                              | str name =>
                                dsimp only at h ⊢
                                cases hC : decodeChildren f d2 with
                                | error e => rw [hC] at h; exact Except.noConfusion h
                                | ok r =>
                                  obtain ⟨children, d3, ds1⟩ := r
                                  obtain ⟨hCs, hCe⟩ := ihC d2 children d3 ds1 hC
                                  have hc2 : CursorStep d0 d2 := hTs.trans hNs
                                  rw [hc2.1] at hCe
                                  rw [hC] at h
                                  rw [hCe]
                                  dsimp only at h ⊢
                                  cases hEnd : d3.unpackSigned 1 true with
                                  | error e => rw [hEnd] at h; exact Except.noConfusion h
                                  | ok rr =>
                                    obtain ⟨tEnd, d4⟩ := rr
                                    obtain ⟨hEs, hEe⟩ := unpackSigned_ext3 extra hEnd
                                    have hc3 : CursorStep d0 d3 := hc2.trans hCs
                                    rw [hc3.1] at hEe
                                    rw [hEnd] at h
                                    rw [hEe]
                                    dsimp only at h ⊢
                                    cases hO : decodeObject name children with
                                    | error e => rw [hO] at h; exact Except.noConfusion h
                                    | ok oo =>
                                      obtain ⟨vv, ds2⟩ := oo
                                      rw [hO] at h
                                      dsimp only at h ⊢
                                      cases h
                                      exact ⟨hc3.trans hEs, rfl⟩
                              | bool b => exact Except.noConfusion h
                              | int n => exact Except.noConfusion h
                              | float w bits => exact Except.noConfusion h
                              | null => exact Except.noConfusion h
                              | list xs => exact Except.noConfusion h
                              | dict es => exact Except.noConfusion h
                          · rw [if_neg hm2] at h ⊢
                            exact Except.noConfusion h
    · intro d0 vs d' ds h
      simp only [decodeChildren] at h ⊢
      cases hP : d0.unpackSigned 1 false with
      | error e => rw [hP] at h; exact Except.noConfusion h
      | ok q =>
        obtain ⟨t, dP⟩ := q
        obtain ⟨hPs, hPe⟩ := unpackSigned_ext3 extra hP
        rw [hP] at h
        rw [hPe]
        dsimp only at h ⊢
        split_ifs at h ⊢ with ht
        · cases h
          exact ⟨CursorStep.refl, rfl⟩
        · cases hV : decodeNext f d0 none with
          | error e => rw [hV] at h; exact Except.noConfusion h
          | ok q2 =>
            obtain ⟨v1, d1, ds1⟩ := q2
            obtain ⟨hVs, hVe⟩ := ihN d0 none v1 d1 ds1 hV
            rw [hV] at h
            rw [hVe]
            dsimp only at h ⊢
            cases hR : decodeChildren f d1 with
            | error e => rw [hR] at h; exact Except.noConfusion h
            | ok q3 =>
              obtain ⟨vs2, d2, ds2⟩ := q3
              obtain ⟨hRs, hRe⟩ := ihC d1 vs2 d2 ds2 hR
              rw [hVs.1] at hRe
              rw [hR] at h
              rw [hRe]
              dsimp only at h ⊢
              cases h
              exact ⟨hVs.trans hRs, rfl⟩


/-- The driver loop is prefix-stable: a run that ends with zero unconsumed
bytes runs identically on an extended buffer, ending with the extra bytes
unconsumed and, when there are any, one extra trailing-bytes diagnostic. -/
lemma topLoop_extend (extra : List Nat) (fuel : Nat) :
    ∀ (n : Nat) (d : Deserializer) (acc : List (String × KValue))
      (ds : List Diag) (m : List (String × KValue)) (dsOut : List Diag),
      topLoop fuel n d acc ds = .ok (m, dsOut, 0) →
      d.offset ≤ d.buffer.length →
      topLoop fuel n ⟨d.buffer ++ extra, d.offset⟩ acc ds =
        .ok (m, dsOut ++
          (if extra.length ≠ 0 then [.trailingBytes extra.length] else []),
          extra.length) := by
  intro n
  induction n with
  | zero =>
    intro d acc ds m dsOut h hle
    simp only [topLoop, Except.ok.injEq, Prod.mk.injEq] at h
    obtain ⟨rfl, rfl, h3⟩ := h
    have hrem : (Deserializer.mk (d.buffer ++ extra) d.offset).remaining =
        extra.length := by
      rw [Deserializer.remaining] at h3
      simp only [Deserializer.remaining, List.length_append]
      omega
    simp only [topLoop, hrem, h3]
    simp
  | succ n ih =>
    intro d acc ds m dsOut h hle
    simp only [topLoop] at h ⊢
    cases hV : decodeNext fuel d none with
    | error e => rw [hV] at h; exact Except.noConfusion h
    | ok q =>
      obtain ⟨v, d1, ds1⟩ := q
      obtain ⟨hVs, hVe⟩ := (decode_extend extra fuel).1 d none v d1 ds1 hV
      rw [hV] at h
      rw [hVe]
      dsimp only at h ⊢
      cases hD : asDictItems v with
      | error e => rw [hD] at h; exact Except.noConfusion h
      | ok items =>
        rw [hD] at h
        dsimp only at h ⊢
        cases hM : mergeEntries acc items with
        | error e => rw [hM] at h; exact Except.noConfusion h
        | ok acc2 =>
          rw [hM] at h
          dsimp only at h ⊢
          have hb1 : d1.offset ≤ d1.buffer.length := by
            rw [hVs.1]
            exact hVs.2 hle
          have hih := ih d1 acc2 (ds ++ ds1) m dsOut h hb1
          rw [hVs.1] at hih
          exact hih

/-- The count stage is prefix-stable in the same sense. -/
lemma deserializeFromCount_extend (extra : List Nat) (fuel : Nat)
    (d : Deserializer) (ds : List Diag) (m : List (String × KValue))
    (dsOut : List Diag)
    (h : deserializeFromCount fuel d ds = .ok (m, dsOut, 0))
    (hle : d.offset ≤ d.buffer.length) :
    deserializeFromCount fuel ⟨d.buffer ++ extra, d.offset⟩ ds =
      .ok (m, dsOut ++
        (if extra.length ≠ 0 then [.trailingBytes extra.length] else []),
        extra.length) := by
  simp only [deserializeFromCount] at h ⊢
  cases hV : decodeNext fuel d none with
  | error e => rw [hV] at h; exact Except.noConfusion h
  | ok q =>
    obtain ⟨cnt, d1, ds1⟩ := q
    obtain ⟨hVs, hVe⟩ := (decode_extend extra fuel).1 d none cnt d1 ds1 hV
    rw [hV] at h
    rw [hVe]
    dsimp only at h ⊢
    cases hR : rangeCount cnt with
    | error e => rw [hR] at h; exact Except.noConfusion h
    | ok n =>
      rw [hR] at h
      dsimp only at h ⊢
      have hb1 : d1.offset ≤ d1.buffer.length := by
        rw [hVs.1]
        exact hVs.2 hle
      have hih := topLoop_extend extra fuel n d1 [] (ds ++ ds1) m dsOut h hb1
      rw [hVs.1] at hih
      exact hih

/-- C5: an input whose declared top-level entries decode successfully with
the buffer consumed exactly decodes to the very same mapping and
diagnostics when trailing bytes are appended, plus exactly one non-fatal
diagnostic carrying the count of the trailing bytes: trailing bytes never
cause failure and never alter the returned mapping. -/
theorem C5_trailing_bytes (fuel : Nat) (data : List Nat)
    (m : List (String × KValue)) (ds : List Diag) (extra : List Nat)
    (h : deserializeAux fuel data = .ok (m, ds, 0)) (hne : extra ≠ []) :
    deserializeAux fuel (data ++ extra) =
      .ok (m, ds ++ [.trailingBytes extra.length], extra.length) ∧
    deserializeData fuel (data ++ extra) =
      .ok (m, ds ++ [.trailingBytes extra.length]) := by
  have hlen : extra.length ≠ 0 := fun hc => hne (List.length_eq_zero.mp hc)
  have haux : deserializeAux fuel (data ++ extra) =
      .ok (m, ds ++ [.trailingBytes extra.length], extra.length) := by
    simp only [deserializeAux] at h ⊢
    cases hS : (Deserializer.mk data 0).extract (SIGNATURE.length : Int) true with
    | error e => rw [hS] at h; exact Except.noConfusion h
    | ok q =>
      obtain ⟨sig, d1⟩ := q
      obtain ⟨hSs, hSe⟩ := extract_ext3 extra hS
      dsimp only at hSe
      rw [hS] at h
      rw [hSe]
      dsimp only at h ⊢
      split_ifs at h ⊢ with hsig
      cases hV : decodeNext fuel d1 none with
      | error e => rw [hV] at h; exact Except.noConfusion h
      | ok q2 =>
        obtain ⟨first, d2, ds0⟩ := q2
        obtain ⟨hVs, hVe⟩ := (decode_extend extra fuel).1 d1 none first d2 ds0 hV
        rw [hSs.1] at hVe
        dsimp only at hVe
        rw [hV] at h
        rw [hVe]
        dsimp only at h ⊢
        split_ifs at h ⊢ with hpy
        have hc2 : CursorStep (Deserializer.mk data 0) d2 := hSs.trans hVs
        have hb2 : d2.offset ≤ d2.buffer.length := by
          have := hc2.2 (by dsimp only; exact Nat.zero_le _)
          rw [hc2.1]
          exact this
        have hext := deserializeFromCount_extend extra fuel d2 ds0 m ds h hb2
        rw [hc2.1] at hext
        dsimp only at hext
        rw [if_pos hlen] at hext
        exact hext
  refine ⟨haux, ?_⟩
  simp only [deserializeData, haux]
  rfl



/-- C5 witness: the sample store with three trailing garbage bytes still
decodes to the same mapping, with the trailing-bytes diagnostic. -/
theorem C5_trailing_bytes_witness :
    deserializeData 20 (sampleStore ++ [9, 9, 9]) =
      .ok ([("clock.data.store", KValue.int 42)], [.trailingBytes 3]) :=
  (C5_trailing_bytes 20 sampleStore [("clock.data.store", KValue.int 42)] []
    [9, 9, 9] rfl (by simp)).2


end KRDS
